import Mathlib

/-
Verification development for the NOMADSExplorer repository.

The Python sources are shallowly embedded as Lean definitions:

* `NOMADSExplorer/common.py` and `NOMADSExplorer/explore/web.py` —
  `get_int_from_word` and `extract_file_attributes` (the two copies are
  textually identical; the embedding follows them line by line).
* `NOMADSExplorer/explore/catalog.py` — the lazy `File` / `Configuration` /
  `Day` / `Catalog` / `TimeSeries` hierarchy.  The injected loader module is
  modelled by `backend_files` / `backend_configurations` fields holding the
  (deterministic) sequence the backend would return; every operation that can
  trigger a lazy fetch returns, besides its result, the updated container and
  the number of backend enumeration calls it performed.
* `NOMADSExplorer/explore/directory.py` — the eager `DConfiguration` /
  `DDay` / `Directory` hierarchy with `select_files` and `all_files`.

Python `dict`s are embedded as association lists with Python's update
semantics (updating an existing key keeps its position, new keys append),
Python exceptions as an `Except PyError` result, and Python's `sorted`
(stable, ascending) as a stable insertion sort, raising `TypeError` exactly
when at least two elements are compared and a sort key is `None`.
-/

deriving instance DecidableEq for Except

namespace NOMADS

/-! ## Python primitives -/

/-- Errors a Python run of the embedded code can raise (plus the distinct
`TypeError` messages of the `__setitem__` validators). -/
inductive PyError where
  | indexError
  | valueError
  | typeErrorKey
  | typeErrorValue
  | typeErrorBoth
  | typeErrorCmp
  | attributeError
deriving DecidableEq

/-- Numeric value of an ASCII digit character. -/
def digitVal (c : Char) : Nat := c.toNat - 48

/-- Value of a (nonempty) list of ASCII digits read left to right, as
`int("".join(digits))` computes it. -/
def digitsToNat (ds : List Char) : Nat := ds.foldl (fun n c => 10 * n + digitVal c) 0

/-- Python `int(s)` restricted to an optional sign followed by ASCII digits
(the shape of every numeric token in a NOMADS file name); `none` models
`ValueError`. -/
def pyInt (s : String) : Option Int :=
  match s.toList with
  | [] => none
  | '-' :: rest =>
      if rest ≠ [] ∧ rest.all Char.isDigit then some (-(digitsToNat rest : Int)) else none
  | '+' :: rest =>
      if rest ≠ [] ∧ rest.all Char.isDigit then some (digitsToNat rest : Int) else none
  | l =>
      if l.all Char.isDigit then some (digitsToNat l : Int) else none

/-- Python slice `s[1:-1]`: drop the first and the last character. -/
def pySlice1n1 (s : String) : String := String.mk ((s.toList.drop 1).dropLast)

/-- Fueled worker for `pyRemoveAll`; the fuel only bounds the recursion
depth (each step strictly shortens the scanned list, so `s.length + 1` fuel
is always enough). -/
def pyRemoveAllFuel : Nat → List Char → List Char → List Char
  | 0, _, _ => []
  | _ + 1, [], _ => []
  | fuel + 1, c :: rest, pat =>
      if pat ≠ [] ∧ pat.isPrefixOf (c :: rest) then
        pyRemoveAllFuel fuel ((c :: rest).drop pat.length) pat
      else
        c :: pyRemoveAllFuel fuel rest pat

/-- Python `s.replace(pat, "")` for a pattern given as a character list:
every non-overlapping occurrence of `pat` is removed, scanning left to
right.  An empty pattern leaves the string unchanged (the embedded code
never passes one). -/
def pyRemoveAll (s pat : List Char) : List Char := pyRemoveAllFuel (s.length + 1) s pat

/-- Python `s.split(".")` (single-character separator), worker: `acc` holds
the current segment reversed. -/
def pySplitDotAux : List Char → List Char → List (List Char)
  | [], acc => [acc.reverse]
  | c :: rest, acc =>
      if c = '.' then acc.reverse :: pySplitDotAux rest []
      else pySplitDotAux rest (c :: acc)

/-- Python `c.lower()` for one character (ASCII case fold, the only case
relevant to model-type tokens). -/
def pyLowerChar (c : Char) : Char :=
  if 'A' ≤ c ∧ c ≤ 'Z' then Char.ofNat (c.toNat + 32) else c

/-- Python `s.lower()` (ASCII). -/
def pyLower (s : String) : String := String.mk (s.toList.map pyLowerChar)

/-- Python `filename.split(".")`. -/
def pySplitDot (s : String) : List String :=
  (pySplitDotAux s.toList []).map String.mk

/-- Removal of only the first occurrence of `pat`, following the spec's words
"the literal substring removed **once**" (used to compare the spec's claim
against the source's replace-all behaviour). -/
def specRemoveOnce (s pat : List Char) : List Char :=
  match s with
  | [] => []
  | c :: rest =>
      if pat ≠ [] ∧ pat.isPrefixOf (c :: rest) then
        (c :: rest).drop pat.length
      else
        c :: specRemoveOnce rest pat

/-! ## Attribute extraction (`common.py` / `web.py`) -/

/-- `get_int_from_word`: concatenate every ASCII digit of the word in
original order and parse the concatenation, `none` when no digit occurs. -/
def get_int_from_word (word : String) : Option Nat :=
  let individual_numbers := word.toList.filter Char.isDigit
  if individual_numbers.isEmpty then none else some (digitsToNat individual_numbers)

/-- The attribute record `extract_file_attributes` builds. -/
structure FileAttributes where
  reference : Int
  configuration : String
  model_type : String
  member : Option Nat
  step : Option Nat
  area : String
deriving DecidableEq

/-- `extract_file_attributes(filename)`: split on `"."`; parse the reference
hour from segment 1 stripped of its first and last character; take the
configuration from segment 2; extract member digits from segment 3 and strip
`"_" + str(member)` (Python `replace`, i.e. all occurrences); extract the
step digits from segment 4; take the area from segment 5.  A missing index
raises `IndexError`, a non-numeric reference raises `ValueError`. -/
def extract_file_attributes (filename : String) : Except PyError FileAttributes := do
  let name_parts := pySplitDot filename
  let p1 ← match name_parts[1]? with
    | some s => Except.ok s
    | none => Except.error PyError.indexError
  let reference ← match pyInt (pySlice1n1 p1) with
    | some n => Except.ok n
    | none => Except.error PyError.valueError
  let configuration ← match name_parts[2]? with
    | some s => Except.ok s
    | none => Except.error PyError.indexError
  let p3 ← match name_parts[3]? with
    | some s => Except.ok s
    | none => Except.error PyError.indexError
  let (member, model_type) :=
    match get_int_from_word p3 with
    | none => ((none : Option Nat), p3)
    | some m => (some m, String.mk (pyRemoveAll p3.toList ('_' :: (Nat.repr m).toList)))
  let p4 ← match name_parts[4]? with
    | some s => Except.ok s
    | none => Except.error PyError.indexError
  let step := get_int_from_word p4
  let area ← match name_parts[5]? with
    | some s => Except.ok s
    | none => Except.error PyError.indexError
  Except.ok {
    reference := reference
    configuration := configuration
    model_type := model_type
    member := member
    step := step
    area := area
  }

/-! ## Python dict embedding -/

/-- Python `d[k] = v`: an existing key keeps its position and gets the new
value, a new key is appended. -/
def dictInsert {κ α : Type} [DecidableEq κ] (m : List (κ × α)) (k : κ) (v : α) :
    List (κ × α) :=
  match m with
  | [] => [(k, v)]
  | (k', v') :: rest => if k' = k then (k, v) :: rest else (k', v') :: dictInsert rest k v

/-- Python `d.get(k, None)`. -/
def dictGet {κ α : Type} [DecidableEq κ] (m : List (κ × α)) (k : κ) : Option α :=
  match m with
  | [] => none
  | (k', v) :: rest => if k' = k then some v else dictGet rest k

/-- Python `d.values()` (as a list, in insertion order). -/
def dictValues {κ α : Type} (m : List (κ × α)) : List α := m.map Prod.snd

/-! ## The lazy catalog hierarchy (`catalog.py`) -/

/-- `catalog.File`: the metadata record for one NWM file.  `step` and
`member` are `Option` because `get_int_from_word` yields `None` when the
corresponding segment holds no digit. -/
structure File where
  name : String
  address : String
  reference : Int
  type : String
  model_type : String
  step : Option Nat
  area : String
  member : Option Nat
deriving DecidableEq

/-- `catalog.Configuration`.  `backend_files` models the sequence
`loader_module.fetch_files(self)` returns; `key_iterator` is the shared
iteration cursor slot; `day_date` stands for the `day` back-reference. -/
structure Configuration where
  address : String
  type : String
  member : Option Nat
  files : List (String × File) := []
  key_iterator : Option Nat := none
  day_date : Int := 0
  backend_files : List File := []
deriving DecidableEq

/-- `catalog.Day`.  `backend_configurations` models
`loader_module.fetch_configurations(self)`. -/
structure Day where
  address : String
  name : String
  date : Int
  configurations : List (String × Configuration) := []
  key_iterator : Option Nat := none
  backend_configurations : List Configuration := []
deriving DecidableEq

/-- `catalog.Catalog` (days are never fetched lazily by this class). -/
structure Catalog where
  address : String
  days : List (Int × Day) := []
  key_iterator : Option Nat := none
deriving DecidableEq

/-- `catalog.TimeSeries` after `__init__` ran; `day_date` stands for the
`day` back-reference. -/
structure TimeSeries where
  files : List File
  reference : Int
  configuration : String
  model_type : String
  area : Option String
  member : Option Nat
  day_date : Int
deriving DecidableEq

/-- Sort key comparison used by every `sorted(..., key=lambda file: file.step)`
call, on files whose steps are present. -/
def stepRel (a b : File) : Prop := a.step.getD 0 ≤ b.step.getD 0

instance : DecidableRel stepRel := fun a b => Nat.decLe _ _

instance : IsTotal File stepRel := ⟨fun a b => Nat.le_total _ _⟩

instance : IsTrans File stepRel := ⟨fun _ _ _ => Nat.le_trans⟩

/-- Python `sorted(files, key=lambda file: file.step)`: with at least two
elements and an absent step the key comparison raises `TypeError`; otherwise
the stable ascending sort (insertion sort, which is exactly Python's stable
ascending order) is returned. -/
def pySortByStep (files : List File) : Except PyError (List File) :=
  if 2 ≤ files.length ∧ files.any (fun f => f.step.isNone) then
    Except.error PyError.typeErrorCmp
  else
    Except.ok (files.insertionSort stepRel)

/-- `Configuration._load_files` guarded by the caller-side emptiness test
(`if self.files is None or len(self.files) == 0`): when the mapping is empty
the backend is enumerated (one call) and the dict comprehension
`{file.name: file for file in ...}` rebuilds `files`; otherwise nothing
happens.  The second component counts backend enumeration calls. -/
def Configuration.loadFiles (c : Configuration) : Configuration × Nat :=
  if c.files.isEmpty then
    ({ c with files := c.backend_files.foldl (fun m f => dictInsert m f.name f) [] }, 1)
  else
    (c, 0)

/-- `Configuration.all_files`. -/
def Configuration.all_files (c : Configuration) : List File × Configuration × Nat :=
  let (c', n) := c.loadFiles
  (dictValues c'.files, c', n)

/-- `Configuration.__getitem__` with a string key (the `isinstance` guard
passes). -/
def Configuration.getItem (c : Configuration) (item : String) :
    Option File × Configuration × Nat :=
  let (c', n) := c.loadFiles
  (dictGet c'.files item, c', n)

/-- `Configuration.__len__`. -/
def Configuration.lenOp (c : Configuration) : Nat × Configuration × Nat :=
  let (c', n) := c.loadFiles
  (c'.files.length, c', n)

/-- `Configuration.get_timeseries`: filter to the matching model type and
reference, then sort by step. -/
def Configuration.get_timeseries (c : Configuration) (model_type : String)
    (reference : Int) : Except PyError (List File) × Configuration × Nat :=
  let (c', n) := c.loadFiles
  (pySortByStep ((dictValues c'.files).filter
      (fun f => decide (f.model_type = model_type ∧ f.reference = reference))), c', n)

/-- `Configuration.__iter__`: (after a potential lazy load) store a fresh
cursor in the shared `key_iterator` slot and return `self`. -/
def Configuration.iterOp (c : Configuration) : Configuration × Nat :=
  let (c', n) := c.loadFiles
  ({ c' with key_iterator := some 0 }, n)

/-- `Configuration.__next__`: advance the shared cursor (an exhausted
cursor stays put); `none` models `StopIteration`. -/
def Configuration.nextOp (c : Configuration) :
    Option (String × File) × Configuration × Nat :=
  let (c', n) := c.loadFiles
  let cursor := c'.key_iterator.getD 0
  let newCursor := if (c'.files[cursor]?).isSome then cursor + 1 else cursor
  (c'.files[cursor]?, { c' with key_iterator := some newCursor }, n)

/-! ### Time-series partitioning (`Configuration.get_all_timeseries`) -/

/-- Inner step of the partition build: `partitions[mt][r].append(file)` with
the `if file.reference not in partitions[mt]` guard folded in. -/
def appendToRef (inner : List (Int × List File)) (r : Int) (f : File) :
    List (Int × List File) :=
  match inner with
  | [] => [(r, [f])]
  | (r', fs) :: rest =>
      if r' = r then (r', fs ++ [f]) :: rest else (r', fs) :: appendToRef rest r f

/-- One loop iteration of the partition build over a file (both
`not in partitions` guards folded in). -/
def partInsert (p : List (String × List (Int × List File))) (f : File) :
    List (String × List (Int × List File)) :=
  match p with
  | [] => [(f.model_type, [(f.reference, [f])])]
  | (mt, inner) :: rest =>
      if mt = f.model_type then (mt, appendToRef inner f.reference f) :: rest
      else (mt, inner) :: partInsert rest f

/-- The full nested partition of a file sequence by model type then
reference, in encounter order. -/
def partitionFiles (files : List File) : List (String × List (Int × List File)) :=
  files.foldl partInsert []

/-- `TimeSeries.__init__`: sorts the partition's files by step (which can
raise) and takes `area` from `files[0]` of the **unsorted** argument list
(`files[0].area if files else None` is evaluated before the constructor
sorts). -/
def mkTimeSeries (ctype : String) (mem : Option Nat) (dd : Int) (mt : String)
    (r : Int) (fs : List File) : Except PyError TimeSeries :=
  match pySortByStep fs with
  | Except.error e => Except.error e
  | Except.ok sortedFiles =>
      Except.ok {
        files := sortedFiles
        reference := r
        configuration := ctype
        model_type := mt
        area := fs.head?.map (fun f => f.area)
        member := mem
        day_date := dd
      }

/-- The inner loop of `get_all_timeseries` over one model type's
reference dictionary. -/
def buildInner (ctype : String) (mem : Option Nat) (dd : Int) (mt : String) :
    List (Int × List File) → Except PyError (List TimeSeries)
  | [] => Except.ok []
  | (r, fs) :: rest => do
      let ts ← mkTimeSeries ctype mem dd mt r fs
      let more ← buildInner ctype mem dd mt rest
      Except.ok (ts :: more)

/-- The outer loop of `get_all_timeseries` over the partition dictionary. -/
def buildOuter (ctype : String) (mem : Option Nat) (dd : Int) :
    List (String × List (Int × List File)) → Except PyError (List TimeSeries)
  | [] => Except.ok []
  | (mt, inner) :: rest => do
      let ts ← buildInner ctype mem dd mt inner
      let more ← buildOuter ctype mem dd rest
      Except.ok (ts ++ more)

/-- `Configuration.get_all_timeseries`: lazy load, partition the files by
`(model_type, reference)`, then build one `TimeSeries` per partition. -/
def Configuration.get_all_timeseries (c : Configuration) :
    Except PyError (List TimeSeries) × Configuration × Nat :=
  let (c', n) := c.loadFiles
  (buildOuter c'.type c'.member c'.day_date (partitionFiles (dictValues c'.files)), c', n)

/-! ### Day and Catalog operations -/

/-- `Day._load_configurations` guarded by the caller-side emptiness test;
the dict comprehension keys each fetched configuration by its `type`. -/
def Day.loadConfigurations (d : Day) : Day × Nat :=
  if d.configurations.isEmpty then
    ({ d with configurations :=
        d.backend_configurations.foldl (fun m cf => dictInsert m cf.type cf) [] }, 1)
  else
    (d, 0)

/-- `Day.__getitem__` with a string key (the `isinstance` guard passes). -/
def Day.getItem (d : Day) (item : String) : Option Configuration × Day × Nat :=
  let (d', n) := d.loadConfigurations
  (dictGet d'.configurations item, d', n)

/-- `Day.__len__`. -/
def Day.lenOp (d : Day) : Nat × Day × Nat :=
  let (d', n) := d.loadConfigurations
  (d'.configurations.length, d', n)

/-- `Day.__iter__`: store a fresh cursor in the shared `key_iterator` slot
and return `self`. -/
def Day.iterOp (d : Day) : Day × Nat :=
  let (d', n) := d.loadConfigurations
  ({ d' with key_iterator := some 0 }, n)

/-- `Day.__next__`: advance the shared cursor (an exhausted cursor stays
put); `none` models `StopIteration`. -/
def Day.nextOp (d : Day) : Option (String × Configuration) × Day × Nat :=
  let (d', n) := d.loadConfigurations
  let cursor := d'.key_iterator.getD 0
  let newCursor := if (d'.configurations[cursor]?).isSome then cursor + 1 else cursor
  (d'.configurations[cursor]?, { d' with key_iterator := some newCursor }, n)

/-- The body of `Catalog.get_all_timeseries` for one day:
`configuration = day[configuration_type]` followed by
`configuration.get_all_timeseries()` — calling the method on the `None`
returned for a missing key raises `AttributeError` — and the
case-insensitive model-type filter. -/
def catalogSeriesForDay (d : Day) (configuration_type model_type : String) :
    Except PyError (List TimeSeries) :=
  match (d.getItem configuration_type).1 with
  | none => Except.error PyError.attributeError
  | some conf =>
      match (conf.get_all_timeseries).1 with
      | Except.error e => Except.error e
      | Except.ok series =>
          Except.ok (series.filter
            (fun s => pyLower s.model_type == pyLower model_type))

/-- The loop of `Catalog.get_all_timeseries` over `self.days.values()`. -/
def catSeriesGo (configuration_type model_type : String) :
    List Day → Except PyError (List TimeSeries)
  | [] => Except.ok []
  | d :: rest => do
      let s ← catalogSeriesForDay d configuration_type model_type
      let r ← catSeriesGo configuration_type model_type rest
      Except.ok (s ++ r)

/-- `Catalog.get_all_timeseries`. -/
def Catalog.get_all_timeseries (cat : Catalog) (configuration_type model_type : String) :
    Except PyError (List TimeSeries) :=
  catSeriesGo configuration_type model_type (dictValues cat.days)

/-! ## The eager hierarchy (`directory.py`) -/

/-- `directory.Configuration` (eager: no loader, no laziness). -/
structure DConfiguration where
  address : String
  type : String
  member : Option Nat
  files : List (String × File) := []
deriving DecidableEq

/-- `directory.Day`. -/
structure DDay where
  address : String
  name : String
  date : Int
  configurations : List (String × DConfiguration) := []
deriving DecidableEq

/-- `directory.Directory`. -/
structure Directory where
  address : String
  days : List (Int × DDay) := []
deriving DecidableEq

/-- `directory.Configuration.add_file`: key the file by its own name. -/
def DConfiguration.add_file (c : DConfiguration) (f : File) : DConfiguration :=
  { c with files := dictInsert c.files f.name f }

/-- `directory.Configuration.select_files`: a fresh configuration receiving
every file satisfying the predicate. -/
def DConfiguration.select_files (c : DConfiguration) (p : File → Bool) : DConfiguration :=
  (dictValues c.files).foldl
    (fun acc f => if p f then acc.add_file f else acc)
    { address := c.address, type := c.type, member := c.member, files := [] }

/-- `directory.Configuration.all_files`. -/
def DConfiguration.all_files (c : DConfiguration) : List File := dictValues c.files

/-- `directory.Day.add_configuration`: key the configuration by its type. -/
def DDay.add_configuration (d : DDay) (c : DConfiguration) : DDay :=
  { d with configurations := dictInsert d.configurations c.type c }

/-- `directory.Day.select_files`: select in every configuration, keeping
only configurations with at least one surviving file. -/
def DDay.select_files (d : DDay) (p : File → Bool) : DDay :=
  (dictValues d.configurations).foldl
    (fun acc c =>
      let nc := c.select_files p
      if 0 < nc.files.length then acc.add_configuration nc else acc)
    { address := d.address, name := d.name, date := d.date, configurations := [] }

/-- `directory.Day.all_files`. -/
def DDay.all_files (d : DDay) : List File :=
  (dictValues d.configurations).flatMap DConfiguration.all_files

/-- `directory.Directory.add_day`: key the day by its date. -/
def Directory.add_day (dir : Directory) (d : DDay) : Directory :=
  { dir with days := dictInsert dir.days d.date d }

/-- `directory.Directory.select_files`: select in every day, keeping only
days with at least one surviving configuration. -/
def Directory.select_files (dir : Directory) (p : File → Bool) : Directory :=
  (dictValues dir.days).foldl
    (fun acc d =>
      let nd := d.select_files p
      if 0 < nd.configurations.length then acc.add_day nd else acc)
    { address := dir.address, days := [] }

/-- `directory.Directory.all_files`. -/
def Directory.all_files (dir : Directory) : List File :=
  (dictValues dir.days).flatMap DDay.all_files

/-! ## Keyed insertion with runtime type validation (`__setitem__`) -/

/-- A dynamically typed Python value, as far as the `isinstance` checks of
the `__setitem__` validators can distinguish one. -/
inductive PyVal where
  | str (s : String)
  | pydate (d : Int)
  | int (n : Int)
  | file (f : File)
  | conf (c : Configuration)
  | day (d : Day)
  | dconf (c : DConfiguration)
  | dday (d : DDay)
deriving DecidableEq

/-- `isinstance(v, str)`. -/
def PyVal.isStr : PyVal → Bool
  | PyVal.str _ => true
  | _ => false

/-- `isinstance(v, datetime)`. -/
def PyVal.isDate : PyVal → Bool
  | PyVal.pydate _ => true
  | _ => false

/-- `isinstance(v, File)` (either module's identical `File` class). -/
def PyVal.isFile : PyVal → Bool
  | PyVal.file _ => true
  | _ => false

/-- `isinstance(v, catalog.Configuration)`. -/
def PyVal.isConf : PyVal → Bool
  | PyVal.conf _ => true
  | _ => false

/-- `isinstance(v, catalog.Day)`. -/
def PyVal.isDay : PyVal → Bool
  | PyVal.day _ => true
  | _ => false

/-- `isinstance(v, directory.Configuration)`. -/
def PyVal.isDConf : PyVal → Bool
  | PyVal.dconf _ => true
  | _ => false

/-- `isinstance(v, directory.Day)`. -/
def PyVal.isDDay : PyVal → Bool
  | PyVal.dday _ => true
  | _ => false

/-- `catalog.Configuration.__setitem__`: distinct errors for bad key, bad
value, or both; on success the file is stored under the key. -/
def Configuration.setItem (c : Configuration) (key value : PyVal) :
    Except PyError Configuration :=
  if ¬ key.isStr ∧ ¬ value.isFile then Except.error PyError.typeErrorBoth
  else if ¬ key.isStr then Except.error PyError.typeErrorKey
  else if ¬ value.isFile then Except.error PyError.typeErrorValue
  else
    match key, value with
    | PyVal.str k, PyVal.file f => Except.ok { c with files := dictInsert c.files k f }
    | _, _ => Except.error PyError.typeErrorBoth

/-- `catalog.Day.__setitem__`. -/
def Day.setItem (d : Day) (key value : PyVal) : Except PyError Day :=
  if ¬ key.isStr ∧ ¬ value.isConf then Except.error PyError.typeErrorBoth
  else if ¬ key.isStr then Except.error PyError.typeErrorKey
  else if ¬ value.isConf then Except.error PyError.typeErrorValue
  else
    match key, value with
    | PyVal.str k, PyVal.conf c => Except.ok { d with configurations := dictInsert d.configurations k c }
    | _, _ => Except.error PyError.typeErrorBoth

/-- `catalog.Catalog.__setitem__`. -/
def Catalog.setItem (cat : Catalog) (key value : PyVal) : Except PyError Catalog :=
  if ¬ key.isDate ∧ ¬ value.isDay then Except.error PyError.typeErrorBoth
  else if ¬ key.isDate then Except.error PyError.typeErrorKey
  else if ¬ value.isDay then Except.error PyError.typeErrorValue
  else
    match key, value with
    | PyVal.pydate k, PyVal.day dy => Except.ok { cat with days := dictInsert cat.days k dy }
    | _, _ => Except.error PyError.typeErrorBoth

/-- `directory.Configuration.__setitem__` (same checks as the catalog
version). -/
def DConfiguration.setItem (c : DConfiguration) (key value : PyVal) :
    Except PyError DConfiguration :=
  if ¬ key.isStr ∧ ¬ value.isFile then Except.error PyError.typeErrorBoth
  else if ¬ key.isStr then Except.error PyError.typeErrorKey
  else if ¬ value.isFile then Except.error PyError.typeErrorValue
  else
    match key, value with
    | PyVal.str k, PyVal.file f => Except.ok { c with files := dictInsert c.files k f }
    | _, _ => Except.error PyError.typeErrorBoth

/-- `directory.Day.__setitem__`, embedded exactly as written: the first two
guards test `isinstance(key, str)` / `isinstance(value, Configuration)`, but
the third guard — whose message says "the value is not a Configuration" —
actually tests `isinstance(value, File)`.  The function returns the binding
that would be stored on success (success is only reachable with a string key
and a `File` value). -/
def dirDaySetItem (key value : PyVal) : Except PyError (String × PyVal) :=
  if ¬ key.isStr ∧ ¬ value.isDConf then Except.error PyError.typeErrorBoth
  else if ¬ key.isStr then Except.error PyError.typeErrorKey
  else if ¬ value.isFile then Except.error PyError.typeErrorValue
  else
    match key with
    | PyVal.str k => Except.ok (k, value)
    | _ => Except.error PyError.typeErrorBoth

/-! ## Dict well-formedness of the eager tree (C8) -/

/-- The file mapping of an eager configuration is keyed by file name with
distinct keys (true of every Python dict that `add_file` builds). -/
def confKeysOK (c : DConfiguration) : Prop :=
  (∀ kv ∈ c.files, kv.1 = kv.2.name) ∧ (c.files.map Prod.fst).Nodup

instance (c : DConfiguration) : Decidable (confKeysOK c) :=
  inferInstanceAs (Decidable (And _ _))

/-- The configuration mapping of an eager day is keyed by configuration
type with distinct keys, and each configuration is well-keyed. -/
def dayKeysOK (d : DDay) : Prop :=
  (∀ kv ∈ d.configurations, kv.1 = kv.2.type ∧ confKeysOK kv.2) ∧
    (d.configurations.map Prod.fst).Nodup

instance (d : DDay) : Decidable (dayKeysOK d) :=
  inferInstanceAs (Decidable (And _ _))

/-- The day mapping of a directory is keyed by date with distinct keys, and
each day is well-keyed. -/
def dirKeysOK (dir : Directory) : Prop :=
  (∀ kv ∈ dir.days, kv.1 = kv.2.date ∧ dayKeysOK kv.2) ∧
    (dir.days.map Prod.fst).Nodup

instance (dir : Directory) : Decidable (dirKeysOK dir) :=
  inferInstanceAs (Decidable (And _ _))

/-! ## Analysis definitions for the partition build -/

/-- The partition key of a file: its `(model_type, reference)` pair. -/
def fileKey (f : File) : String × Int := (f.model_type, f.reference)

/-- Look a group up in the nested partition dictionary. -/
def partGet (p : List (String × List (Int × List File))) (mt : String) (r : Int) :
    Option (List File) :=
  match dictGet p mt with
  | none => none
  | some inner => dictGet inner r

/-- Append newly grouped files to an optional existing group (the shape in
which a fold of `partInsert` extends any starting partition). -/
def combineGroup : Option (List File) → List File → Option (List File)
  | some g, l => some (g ++ l)
  | none, l => if l.isEmpty then none else some l

/-- The `(model type, reference)` pairs of the nested partition, in emission
order of `get_all_timeseries`. -/
def flatKeys : List (String × List (Int × List File)) → List (String × Int)
  | [] => []
  | (mt, inner) :: rest => inner.map (fun e => (mt, e.1)) ++ flatKeys rest

/-- Total number of files in one inner reference dictionary. -/
def innerSize (inner : List (Int × List File)) : Nat :=
  (inner.map (fun e => e.2.length)).sum

/-- Total number of files in the nested partition. -/
def partSize (p : List (String × List (Int × List File))) : Nat :=
  (p.map (fun e => innerSize e.2)).sum

/-- Well-formedness of the nested partition: outer keys are distinct and so
are the inner keys of every entry (true of every partition the build
produces, since both levels are Python dicts). -/
def PartWF (p : List (String × List (Int × List File))) : Prop :=
  (p.map Prod.fst).Nodup ∧ ∀ e ∈ p, (e.2.map Prod.fst).Nodup

/-! ## Concrete instances used by the claim theorems -/

/-- The expected attribute record for the C2 counterexample file name
`a.t00z.x.c_0_0.f001.conus.nc`: segment 3 is `c_0_0`, whose digits
concatenate to `"00"`, so `member = int("00") = 0`, and Python's
`replace("_0", "")` removes **both** occurrences of `"_0"`. -/
def c2Attrs : FileAttributes :=
  { reference := 0, configuration := "x", model_type := "c",
    member := some 0, step := some 1, area := "conus" }

/-- The file stored in the C6 configuration `a`. -/
def c6FileX : File :=
  { name := "x", address := "", reference := 0, type := "a",
    model_type := "m", step := some 1, area := "conus", member := none }

/-- The file stored in the C6 configuration `b`. -/
def c6FileY : File :=
  { name := "y", address := "", reference := 0, type := "b",
    model_type := "m", step := some 2, area := "conus", member := none }

/-- A populated configuration named `a` for the C6 interference trace. -/
def c6ConfA : Configuration :=
  { address := "", type := "a", member := none, files := [("x", c6FileX)] }

/-- A populated configuration named `b` for the C6 interference trace. -/
def c6ConfB : Configuration :=
  { address := "", type := "b", member := none, files := [("y", c6FileY)] }

/-- A populated day holding the two configurations `a` and `b`. -/
def c6Day : Day :=
  { address := "", name := "nwm.20200101", date := 0,
    configurations := [("a", c6ConfA), ("b", c6ConfB)] }

/-- The single `channel_rt` file of the C5 scenario. -/
def c5File : File :=
  { name := "f", address := "", reference := 0, type := "medium_range",
    model_type := "channel_rt", step := some 1, area := "conus", member := none }

/-- A populated configuration of type `medium_range` (so no lazy fetch
interferes with the C5 scenario). -/
def c5Conf : Configuration :=
  { address := "", type := "medium_range", member := none, files := [("f", c5File)] }

/-- A populated day that has no `short_range` configuration. -/
def c5Day : Day :=
  { address := "", name := "nwm.20200101", date := 0,
    configurations := [("medium_range", c5Conf)] }

/-- A catalog holding only `c5Day`. -/
def c5Catalog : Catalog := { address := "", days := [(0, c5Day)] }

/-- The file the C1 witness backend returns. -/
def c1File : File :=
  { name := "f", address := "", reference := 0, type := "short_range",
    model_type := "channel_rt", step := some 1, area := "conus", member := none }

/-- An unloaded configuration whose backend holds one file, for the C1
witness. -/
def c1Conf : Configuration :=
  { address := "", type := "short_range", member := none, backend_files := [c1File] }

/-- An unloaded day whose backend holds one configuration, for the C1
witness. -/
def c1Day : Day :=
  { address := "", name := "nwm.20200101", date := 0,
    backend_configurations := [c1Conf] }

/-- An unloaded configuration whose backend returns an empty sequence, for
the C1 counterexample. -/
def c1EmptyConf : Configuration :=
  { address := "", type := "short_range", member := none, backend_files := [] }

/-- A file with an absent step (its step token held no digits). -/
def c10File : File :=
  { name := "n", address := "", reference := 0, type := "short_range",
    model_type := "m", step := none, area := "conus", member := none }

/-- A configuration whose only file matches the query and has an absent
step. -/
def c10Conf : Configuration :=
  { address := "", type := "short_range", member := none, files := [("n", c10File)] }

/-- A file with step 1 matching the same query as `c10File`. -/
def c10File2 : File :=
  { name := "p", address := "", reference := 0, type := "short_range",
    model_type := "m", step := some 1, area := "conus", member := none }

/-- A configuration with two matching files, one of which has an absent
step. -/
def c10ConfPair : Configuration :=
  { address := "", type := "short_range", member := none,
    files := [("n", c10File), ("p", c10File2)] }

/-- C4 scenario: the file encountered first in its partition, with the
larger step and area `A`. -/
def c4FileA : File :=
  { name := "a", address := "", reference := 0, type := "short_range",
    model_type := "m", step := some 5, area := "A", member := none }

/-- C4 scenario: the file with the smallest step of its partition, area
`B`. -/
def c4FileB : File :=
  { name := "b", address := "", reference := 0, type := "short_range",
    model_type := "m", step := some 1, area := "B", member := none }

/-- C4 scenario: a configuration holding the two files of one partition in
encounter order `a`, `b`. -/
def c4Conf : Configuration :=
  { address := "", type := "short_range", member := none,
    files := [("a", c4FileA), ("b", c4FileB)] }

/-- The time series `c4Conf.get_all_timeseries` produces: files sorted by
step (`b` before `a`) but `area` taken from the pre-sort head `a`. -/
def c4Series : TimeSeries :=
  { files := [c4FileB, c4FileA], reference := 0, configuration := "short_range",
    model_type := "m", area := some "A", member := none, day_date := 0 }

/-- C8 scenario: a one-file configuration for the witness directory. -/
def c8Conf : DConfiguration :=
  { address := "", type := "short_range", member := none,
    files := [("f", c5File)] }

/-- C8 scenario: the witness day. -/
def c8Day : DDay :=
  { address := "", name := "nwm.20200101", date := 0,
    configurations := [("short_range", c8Conf)] }

/-- C8 scenario: the witness directory, one day with one configuration and
one file. -/
def c8Dir : Directory := { address := "", days := [(0, c8Day)] }

/-! ## Theorems: attribute extraction (C2, C9) -/

/-- C2 (counterexample): on `a.t00z.x.c_0_0.f001.conus.nc` the extractor
records `member = 0` but removes **every** occurrence of `"_0"` from the
token `c_0_0`, yielding `model_type = "c"`, while the claim's
"removed once" yields `"c_0"`. -/
theorem extract_member_once_counterexample :
    extract_file_attributes "a.t00z.x.c_0_0.f001.conus.nc" = Except.ok c2Attrs ∧
    c2Attrs.member = some 0 ∧
    c2Attrs.model_type = "c" ∧
    String.mk (specRemoveOnce "c_0_0".toList ('_' :: (Nat.repr 0).toList)) = "c_0" ∧
    c2Attrs.model_type ≠
      String.mk (specRemoveOnce "c_0_0".toList ('_' :: (Nat.repr 0).toList)) := by
  refine ⟨by decide, by decide, by decide, by decide, by decide⟩

/-- C2 (amended): for any file name with at least 6 dot-separated segments
and a numeric stripped reference token, if segment 3 contains no digit the
member is absent and the model type is the segment verbatim; if it contains
a digit, the member is the integer parsed from the concatenation, in
original order, of every digit character of the segment, and the model type
is the segment with **every** occurrence of `"_" + str(member)` removed
(Python `replace`), which coincides with single removal except when
`member = 0` occurs as `"_0"` more than once. -/
theorem extract_member_model_type (filename p1 p3 : String)
    (h1 : (pySplitDot filename)[1]? = some p1)
    (href : (pyInt (pySlice1n1 p1)).isSome)
    (h3 : (pySplitDot filename)[3]? = some p3)
    (h6 : 6 ≤ (pySplitDot filename).length) :
    ∃ a, extract_file_attributes filename = Except.ok a ∧
      (p3.toList.filter Char.isDigit = [] → a.member = none ∧ a.model_type = p3) ∧
      (p3.toList.filter Char.isDigit ≠ [] →
        a.member = some (digitsToNat (p3.toList.filter Char.isDigit)) ∧
        a.model_type = String.mk (pyRemoveAll p3.toList
          ('_' :: (Nat.repr (digitsToNat (p3.toList.filter Char.isDigit))).toList))) := by
  obtain ⟨rv, hrv⟩ := Option.isSome_iff_exists.mp href
  obtain ⟨p2, h2⟩ : ∃ s, (pySplitDot filename)[2]? = some s :=
    ⟨_, List.getElem?_eq_getElem (show 2 < (pySplitDot filename).length by omega)⟩
  obtain ⟨p4, h4⟩ : ∃ s, (pySplitDot filename)[4]? = some s :=
    ⟨_, List.getElem?_eq_getElem (show 4 < (pySplitDot filename).length by omega)⟩
  obtain ⟨p5, h5⟩ : ∃ s, (pySplitDot filename)[5]? = some s :=
    ⟨_, List.getElem?_eq_getElem (show 5 < (pySplitDot filename).length by omega)⟩
  rcases hfe : p3.toList.filter Char.isDigit with _ | ⟨c, cs⟩
  · have hm : get_int_from_word p3 = none := by
      unfold get_int_from_word
      rw [hfe]
      rfl
    refine ⟨⟨rv, p2, p3, none, get_int_from_word p4, p5⟩, ?_, ?_, ?_⟩
    · simp only [extract_file_attributes, h1, h2, h3, h4, h5, hrv, hm, bind, Except.bind]
    · intro _
      exact ⟨rfl, rfl⟩
    · intro hc
      exact absurd rfl hc
  · have hm : get_int_from_word p3 = some (digitsToNat (c :: cs)) := by
      unfold get_int_from_word
      rw [hfe]
      rfl
    refine ⟨⟨rv, p2,
        String.mk (pyRemoveAll p3.toList ('_' :: (Nat.repr (digitsToNat (c :: cs))).toList)),
        some (digitsToNat (c :: cs)), get_int_from_word p4, p5⟩, ?_, ?_, ?_⟩
    · simp only [extract_file_attributes, h1, h2, h3, h4, h5, hrv, hm, bind, Except.bind]
    · intro hc
      exact absurd hc (List.cons_ne_nil c cs)
    · intro _
      exact ⟨rfl, rfl⟩

/-- C2 (witness): the amended claim applied to the spec's own example
`nwm.t00z.short_range.channel_rt_3.f005.conus.nc` yields `member = 3` and
`model_type = "channel_rt"`. -/
theorem extract_member_model_type_witness :
    (extract_file_attributes "nwm.t00z.short_range.channel_rt_3.f005.conus.nc").map
      (fun a => (a.member, a.model_type)) = Except.ok (some 3, "channel_rt") := by
  obtain ⟨a, ha, _, hdig⟩ := extract_member_model_type
    "nwm.t00z.short_range.channel_rt_3.f005.conus.nc" "t00z" "channel_rt_3"
    (by decide) (by decide) (by decide) (by decide)
  obtain ⟨hmem, hmt⟩ := hdig (by decide)
  rw [ha]
  show Except.ok (a.member, a.model_type) = Except.ok (some 3, "channel_rt")
  rw [hmem, hmt]
  decide

/-- C9 (confirmed): `extract_file_attributes` fails on every name with fewer
than 6 dot-separated segments, fails whenever the reference segment stripped
of its first and last character is non-numeric, and succeeds on every name
with at least 6 segments and a numeric stripped reference token. -/
theorem extract_error_characterization (filename : String) :
    ((pySplitDot filename).length < 6 →
      ∃ e, extract_file_attributes filename = Except.error e) ∧
    (∀ p1, (pySplitDot filename)[1]? = some p1 → pyInt (pySlice1n1 p1) = none →
      ∃ e, extract_file_attributes filename = Except.error e) ∧
    (6 ≤ (pySplitDot filename).length →
      (∀ p1, (pySplitDot filename)[1]? = some p1 → (pyInt (pySlice1n1 p1)).isSome) →
      ∃ a, extract_file_attributes filename = Except.ok a) := by
  refine ⟨?_, ?_, ?_⟩
  · intro hlen
    rcases h1 : (pySplitDot filename)[1]? with _ | p1
    · exact ⟨PyError.indexError, by simp [extract_file_attributes, h1, bind, Except.bind]⟩
    rcases hr : pyInt (pySlice1n1 p1) with _ | rv
    · exact ⟨PyError.valueError, by simp [extract_file_attributes, h1, hr, bind, Except.bind]⟩
    rcases h2 : (pySplitDot filename)[2]? with _ | p2
    · exact ⟨PyError.indexError, by simp [extract_file_attributes, h1, hr, h2, bind, Except.bind]⟩
    rcases h3 : (pySplitDot filename)[3]? with _ | p3
    · exact ⟨PyError.indexError,
        by simp [extract_file_attributes, h1, hr, h2, h3, bind, Except.bind]⟩
    rcases h4 : (pySplitDot filename)[4]? with _ | p4
    · exact ⟨PyError.indexError,
        by simp [extract_file_attributes, h1, hr, h2, h3, h4, bind, Except.bind]⟩
    have h5 : (pySplitDot filename)[5]? = none := by
      rw [List.getElem?_eq_none_iff]
      omega
    exact ⟨PyError.indexError,
      by simp [extract_file_attributes, h1, hr, h2, h3, h4, h5, bind, Except.bind]⟩
  · intro p1 h1 hr
    exact ⟨PyError.valueError, by simp [extract_file_attributes, h1, hr, bind, Except.bind]⟩
  · intro hlen href
    obtain ⟨p1, h1⟩ : ∃ s, (pySplitDot filename)[1]? = some s :=
      ⟨_, List.getElem?_eq_getElem (show 1 < (pySplitDot filename).length by omega)⟩
    obtain ⟨rv, hrv⟩ := Option.isSome_iff_exists.mp (href _ h1)
    obtain ⟨p2, h2⟩ : ∃ s, (pySplitDot filename)[2]? = some s :=
      ⟨_, List.getElem?_eq_getElem (show 2 < (pySplitDot filename).length by omega)⟩
    obtain ⟨p3, h3⟩ : ∃ s, (pySplitDot filename)[3]? = some s :=
      ⟨_, List.getElem?_eq_getElem (show 3 < (pySplitDot filename).length by omega)⟩
    obtain ⟨p4, h4⟩ : ∃ s, (pySplitDot filename)[4]? = some s :=
      ⟨_, List.getElem?_eq_getElem (show 4 < (pySplitDot filename).length by omega)⟩
    obtain ⟨p5, h5⟩ : ∃ s, (pySplitDot filename)[5]? = some s :=
      ⟨_, List.getElem?_eq_getElem (show 5 < (pySplitDot filename).length by omega)⟩
    rcases hm : get_int_from_word p3 with _ | m
    · refine ⟨⟨rv, p2, p3, none, get_int_from_word p4, p5⟩, ?_⟩
      simp only [extract_file_attributes, h1, hrv, h2, h3, h4, h5, hm, bind, Except.bind]
    · refine ⟨⟨rv, p2, String.mk (pyRemoveAll p3.toList ('_' :: (Nat.repr m).toList)),
        some m, get_int_from_word p4, p5⟩, ?_⟩
      simp only [extract_file_attributes, h1, hrv, h2, h3, h4, h5, hm, bind, Except.bind]

/-- C9 (witness): a 7-segment name with numeric reference parses, and the
theorem's failure clauses apply to the 1-segment name `"ab"`. -/
theorem extract_error_characterization_witness :
    (extract_file_attributes "nwm.t00z.short_range.channel_rt.f005.conus.nc").isOk =
      true := by
  have hnum : ∀ p1, (pySplitDot "nwm.t00z.short_range.channel_rt.f005.conus.nc")[1]? =
      some p1 → (pyInt (pySlice1n1 p1)).isSome := by
    intro p1 h
    have hx : (pySplitDot "nwm.t00z.short_range.channel_rt.f005.conus.nc")[1]? =
        some "t00z" := by decide
    rw [hx] at h
    cases h
    decide
  obtain ⟨a, ha⟩ := (extract_error_characterization
    "nwm.t00z.short_range.channel_rt.f005.conus.nc").2.2 (by decide) hnum
  rw [ha]
  rfl

/-! ## Theorems: keyed insertion validation (C7) -/

/-- C7 (code_bug): `directory.Day.__setitem__` rejects a correctly typed
insertion — a string key with a `directory.Configuration` value — raising
the value-type error whose message claims "the value is not a
Configuration", because the guard actually tests `isinstance(value, File)`;
the `catalog.Day.__setitem__` twin accepts the same shape of insertion. -/
theorem directory_day_setitem_rejects_valid_insert :
    dirDaySetItem (PyVal.str "short_range")
      (PyVal.dconf { address := "addr", type := "short_range", member := none }) =
      Except.error PyError.typeErrorValue ∧
    dirDaySetItem (PyVal.int 3)
      (PyVal.dconf { address := "addr", type := "short_range", member := none }) =
      Except.error PyError.typeErrorKey ∧
    dirDaySetItem (PyVal.int 3) (PyVal.str "oops") =
      Except.error PyError.typeErrorBoth ∧
    Day.setItem { address := "", name := "nwm.20200101", date := 0 }
      (PyVal.str "short_range")
      (PyVal.conf { address := "addr", type := "short_range", member := none }) =
      Except.ok ⟨"", "nwm.20200101", 0,
        [("short_range", { address := "addr", type := "short_range", member := none })],
        none, []⟩ := by
  refine ⟨by decide, by decide, by decide, by decide⟩

/-! ## Theorems: shared iteration cursor (C6) -/

/-- C6 (code_bug): two interleaved enumerations of the same populated `Day`
interfere through the shared `key_iterator` slot.  Caller A starts
(`__iter__`), takes one pair; caller B starts (`__iter__` resets the shared
cursor), takes one pair; A takes another; B's next call hits
`StopIteration`.  B has received only `("a", c6ConfA)` — not the complete
pair sequence `[("a", c6ConfA), ("b", c6ConfB)]`. -/
theorem shared_cursor_interference :
    (((c6Day.iterOp).1.nextOp).1 = some ("a", c6ConfA)) ∧
    (let afterA1 := ((c6Day.iterOp).1.nextOp).2.1
     let afterBIter := (afterA1.iterOp).1
     let b1 := afterBIter.nextOp
     b1.1 = some ("a", c6ConfA) ∧
     (let a2 := (b1.2.1).nextOp
      a2.1 = some ("b", c6ConfB) ∧ ((a2.2.1).nextOp).1 = none)) ∧
    [("a", c6ConfA)] ≠ [("a", c6ConfA), ("b", c6ConfB)] := by
  refine ⟨by decide, ⟨by decide, by decide, by decide⟩, by decide⟩

/-! ## Theorems: catalog-level time-series lookup (C5) -/

/-- C5 (code_bug): asking the catalog for `short_range` series raises
`AttributeError` (the `None` returned by `day[configuration_type]` has no
`get_all_timeseries` method) instead of skipping the day, while the same
call for the present `medium_range` configuration succeeds and filters
case-insensitively. -/
theorem catalog_get_all_timeseries_missing_configuration :
    c5Catalog.get_all_timeseries "short_range" "channel_rt" =
      Except.error PyError.attributeError ∧
    (c5Catalog.get_all_timeseries "medium_range" "CHANNEL_RT").map List.length =
      Except.ok 1 := by
  refine ⟨by decide, by decide⟩

/-! ## Theorems: lazy loading (C1) -/

/-- `dictInsert` never produces an empty mapping. -/
theorem dictInsert_ne_nil {κ α : Type} [DecidableEq κ] (m : List (κ × α)) (k : κ)
    (v : α) : dictInsert m k v ≠ [] := by
  cases m with
  | nil => simp [dictInsert]
  | cons kv rest =>
      obtain ⟨k', v'⟩ := kv
      unfold dictInsert
      split <;> simp

/-- Folding `dictInsert` keeps a mapping nonempty (and makes it nonempty as
soon as one element is inserted). -/
theorem foldl_dictInsert_ne_nil {κ α : Type} [DecidableEq κ] (key : α → κ) :
    ∀ (l : List α) (m : List (κ × α)), m ≠ [] ∨ l ≠ [] →
      l.foldl (fun acc v => dictInsert acc (key v) v) m ≠ [] := by
  intro l
  induction l with
  | nil =>
      intro m h
      simpa using h.resolve_right (by simp)
  | cons a rest ih =>
      intro m _
      exact ih (dictInsert m (key a) a) (Or.inl (dictInsert_ne_nil m (key a) a))

/-- A `Configuration` with a populated mapping does not consult the
backend. -/
theorem loadFiles_of_ne (c : Configuration) (h : c.files ≠ []) :
    c.loadFiles = (c, 0) := by
  unfold Configuration.loadFiles
  rw [if_neg]
  simpa [List.isEmpty_iff] using h

/-- An unloaded `Configuration` performs exactly one backend call and
rebuilds its mapping from the fetched sequence, keyed by file name. -/
theorem loadFiles_of_empty (c : Configuration) (h : c.files = []) :
    c.loadFiles =
      ({ c with files := c.backend_files.foldl (fun m f => dictInsert m f.name f) [] }, 1) := by
  unfold Configuration.loadFiles
  rw [if_pos]
  simp [List.isEmpty_iff, h]

/-- A `Day` with a populated mapping does not consult the backend. -/
theorem loadConfigurations_of_ne (d : Day) (h : d.configurations ≠ []) :
    d.loadConfigurations = (d, 0) := by
  unfold Day.loadConfigurations
  rw [if_neg]
  simpa [List.isEmpty_iff] using h

/-- An unloaded `Day` performs exactly one backend call and rebuilds its
mapping from the fetched sequence, keyed by configuration type. -/
theorem loadConfigurations_of_empty (d : Day) (h : d.configurations = []) :
    d.loadConfigurations =
      ({ d with configurations :=
          d.backend_configurations.foldl (fun m cf => dictInsert m cf.type cf) [] }, 1) := by
  unfold Day.loadConfigurations
  rw [if_pos]
  simp [List.isEmpty_iff, h]

/-- C1 (amended): every read operation on an unloaded container performs
exactly one backend enumeration call.  When the first enumeration returned a
**nonempty** sequence, every subsequent read performs zero backend calls;
when it returned an **empty** sequence the container stays unloaded and
every subsequent read performs one backend call again.  In both cases
subsequent reads return the identical child set. -/
theorem lazy_load_call_counts (c : Configuration) (d : Day) (k k2 mt : String)
    (r : Int) (hc : c.files = []) (hd : d.configurations = []) :
    (c.all_files.2.2 = 1 ∧ (c.getItem k).2.2 = 1 ∧ c.lenOp.2.2 = 1 ∧
      (c.get_timeseries mt r).2.2 = 1 ∧ c.get_all_timeseries.2.2 = 1 ∧
      c.nextOp.2.2 = 1 ∧
      (d.getItem k2).2.2 = 1 ∧ d.lenOp.2.2 = 1 ∧ d.nextOp.2.2 = 1) ∧
    (c.backend_files ≠ [] →
      (c.all_files.2.1.all_files.2.2 = 0 ∧ ((c.all_files.2.1).getItem k).2.2 = 0 ∧
        (c.all_files.2.1).lenOp.2.2 = 0 ∧
        ((c.all_files.2.1).get_timeseries mt r).2.2 = 0 ∧
        (c.all_files.2.1).get_all_timeseries.2.2 = 0)) ∧
    (c.backend_files = [] →
      (c.all_files.2.1.all_files.2.2 = 1 ∧ (c.all_files.2.1).lenOp.2.2 = 1)) ∧
    (c.all_files.2.1.all_files.1 = c.all_files.1 ∧
      c.all_files.2.1.all_files.2.1.files = c.all_files.2.1.files) ∧
    (d.backend_configurations ≠ [] →
      (((d.lenOp.2.1).getItem k2).2.2 = 0 ∧ (d.lenOp.2.1).lenOp.2.2 = 0)) ∧
    (d.backend_configurations = [] →
      (((d.lenOp.2.1).getItem k2).2.2 = 1 ∧ (d.lenOp.2.1).lenOp.2.2 = 1)) ∧
    (d.lenOp.2.1).lenOp.2.1.configurations = (d.lenOp.2.1).configurations := by
  have hl := loadFiles_of_empty c hc
  have hld := loadConfigurations_of_empty d hd
  have hfiles1 : c.loadFiles.1.files =
      c.backend_files.foldl (fun m f => dictInsert m f.name f) [] := by
    rw [hl]
  have hbf1 : c.loadFiles.1.backend_files = c.backend_files := by
    rw [hl]
  have hconf1 : d.loadConfigurations.1.configurations =
      d.backend_configurations.foldl (fun m cf => dictInsert m cf.type cf) [] := by
    rw [hld]
  have hbc1 : d.loadConfigurations.1.backend_configurations =
      d.backend_configurations := by
    rw [hld]
  refine ⟨?_, ?_, ?_, ?_, ?_, ?_, ?_⟩
  · simp [Configuration.all_files, Configuration.getItem, Configuration.lenOp,
      Configuration.get_timeseries, Configuration.get_all_timeseries,
      Configuration.nextOp, Day.getItem, Day.lenOp, Day.nextOp, hl, hld]
  · intro hb
    have hne : c.loadFiles.1.files ≠ [] := by
      rw [hfiles1]
      exact foldl_dictInsert_ne_nil (fun f => f.name) c.backend_files [] (Or.inr hb)
    have hl2 := loadFiles_of_ne _ hne
    simp [Configuration.all_files, Configuration.getItem, Configuration.lenOp,
      Configuration.get_timeseries, Configuration.get_all_timeseries, hl2]
  · intro hb
    have hfe : c.loadFiles.1.files = [] := by
      rw [hfiles1, hb]
      rfl
    have hl2 := loadFiles_of_empty _ hfe
    simp [Configuration.all_files, Configuration.lenOp, hl2]
  · by_cases hb : c.backend_files = []
    · have hfe : c.loadFiles.1.files = [] := by
        rw [hfiles1, hb]
        rfl
      have hl2 := loadFiles_of_empty _ hfe
      simp [Configuration.all_files, hl2, hfe, hbf1, hb]
    · have hne : c.loadFiles.1.files ≠ [] := by
        rw [hfiles1]
        exact foldl_dictInsert_ne_nil (fun f => f.name) c.backend_files [] (Or.inr hb)
      have hl2 := loadFiles_of_ne _ hne
      simp [Configuration.all_files, hl2]
  · intro hb
    have hne : d.loadConfigurations.1.configurations ≠ [] := by
      rw [hconf1]
      exact foldl_dictInsert_ne_nil (fun cf => cf.type) d.backend_configurations []
        (Or.inr hb)
    have hl2 := loadConfigurations_of_ne _ hne
    simp [Day.getItem, Day.lenOp, hl2]
  · intro hb
    have hfe : d.loadConfigurations.1.configurations = [] := by
      rw [hconf1, hb]
      rfl
    have hl2 := loadConfigurations_of_empty _ hfe
    simp [Day.getItem, Day.lenOp, hl2]
  · by_cases hb : d.backend_configurations = []
    · have hfe : d.loadConfigurations.1.configurations = [] := by
        rw [hconf1, hb]
        rfl
      have hl2 := loadConfigurations_of_empty _ hfe
      simp [Day.lenOp, hl2, hfe, hbc1, hb]
    · have hne : d.loadConfigurations.1.configurations ≠ [] := by
        rw [hconf1]
        exact foldl_dictInsert_ne_nil (fun cf => cf.type) d.backend_configurations []
          (Or.inr hb)
      have hl2 := loadConfigurations_of_ne _ hne
      simp [Day.lenOp, hl2]

/-- C1 (witness): on a concrete unloaded configuration with a nonempty
backend, the first read performs one backend call and the second read
performs none; same for a day. -/
theorem lazy_load_call_counts_witness :
    c1Conf.all_files.2.2 = 1 ∧ c1Conf.all_files.2.1.all_files.2.2 = 0 ∧
    c1Day.lenOp.2.2 = 1 ∧ ((c1Day.lenOp.2.1).getItem "short_range").2.2 = 0 := by
  obtain ⟨hfirst, hnon, _, _, hdnon, _, _⟩ :=
    lazy_load_call_counts c1Conf c1Day "k" "short_range" "m" 0 rfl rfl
  exact ⟨hfirst.1, (hnon (by decide)).1, hfirst.2.2.2.2.2.2.2.1, (hdnon (by decide)).1⟩

/-- C1 (counterexample): when the first enumeration returns an **empty**
sequence the container never counts as loaded — the second read performs one
more backend call, not zero as the claim states (the child set is still
identical). -/
theorem lazy_refetch_counterexample :
    c1EmptyConf.all_files.2.2 = 1 ∧
    c1EmptyConf.all_files.2.1.all_files.2.2 = 1 ∧
    ¬ c1EmptyConf.all_files.2.1.all_files.2.2 = 0 ∧
    c1EmptyConf.all_files.2.1.all_files.1 = c1EmptyConf.all_files.1 := by
  refine ⟨by decide, by decide, by decide, by decide⟩

/-! ## Theorems: step sorting precondition (C10) -/

/-- A successful `pySortByStep` returns exactly the stable insertion sort. -/
theorem pySortByStep_ok (fs l : List File) (h : pySortByStep fs = Except.ok l) :
    l = fs.insertionSort stepRel := by
  unfold pySortByStep at h
  split at h
  · exact Except.noConfusion h
  · injection h with h'
    exact h'.symm

/-- The stable sort by step is pairwise ascending in the step values. -/
theorem insertionSort_step_pairwise (fs : List File) :
    (fs.insertionSort stepRel).Pairwise (fun a b => a.step.getD 0 ≤ b.step.getD 0) :=
  List.sorted_insertionSort stepRel fs

/-- C10 (amended): on a populated configuration, `get_timeseries` raises the
sort-comparison `TypeError` **iff** at least two files match the requested
model type and reference and some matching file has an absent step; whenever
it returns a list, that list is the matching files permuted into ascending
step order (in particular a single matching file with an absent step is
returned, not an error). -/
theorem get_timeseries_step_precondition (c : Configuration) (hne : c.files ≠ [])
    (mt : String) (r : Int) :
    ((c.get_timeseries mt r).1 = Except.error PyError.typeErrorCmp ↔
      2 ≤ ((dictValues c.files).filter
          (fun f => decide (f.model_type = mt ∧ f.reference = r))).length ∧
        ∃ f ∈ (dictValues c.files).filter
          (fun f => decide (f.model_type = mt ∧ f.reference = r)), f.step = none) ∧
    (∀ l, (c.get_timeseries mt r).1 = Except.ok l →
      l.Pairwise (fun a b => a.step.getD 0 ≤ b.step.getD 0) ∧
      l.Perm ((dictValues c.files).filter
        (fun f => decide (f.model_type = mt ∧ f.reference = r)))) := by
  have hl := loadFiles_of_ne c hne
  constructor
  · simp only [Configuration.get_timeseries, hl]
    unfold pySortByStep
    split
    · rename_i hcond
      simp only [true_iff]
      refine ⟨hcond.1, ?_⟩
      obtain ⟨f, hf, hfn⟩ := List.any_eq_true.mp hcond.2
      exact ⟨f, hf, Option.isNone_iff_eq_none.mp hfn⟩
    · rename_i hcond
      constructor
      · intro h
        exact Except.noConfusion h
      · intro ⟨hlen, f, hf, hfn⟩
        exact absurd ⟨hlen, List.any_eq_true.mpr ⟨f, hf, by simp [hfn]⟩⟩ hcond
  · intro l hok
    simp only [Configuration.get_timeseries, hl] at hok
    have hl' := pySortByStep_ok _ _ hok
    subst hl'
    exact ⟨insertionSort_step_pairwise _, List.perm_insertionSort _ _⟩

/-- C10 (counterexample): a single matching file with an absent step is
**returned** by `get_timeseries`, not turned into an error, contradicting
the claim that an absent step among the matching files raises during
sorting. -/
theorem get_timeseries_singleton_absent_step :
    (c10Conf.get_timeseries "m" 0).1 = Except.ok [c10File] ∧ c10File.step = none := by
  refine ⟨by decide, by decide⟩

/-- C10 (witness): with two matching files, one step-less, the amended claim
yields the sort-comparison `TypeError`. -/
theorem get_timeseries_step_precondition_witness :
    (c10ConfPair.get_timeseries "m" 0).1 = Except.error PyError.typeErrorCmp :=
  ((get_timeseries_step_precondition c10ConfPair (by decide) "m" 0).1).mpr (by decide)

/-! ## Partition lemmas (C3, C4) -/

/-- `appendToRef` updates exactly the queried reference group. -/
theorem dictGet_appendToRef (inner : List (Int × List File)) (r : Int) (f : File)
    (r' : Int) :
    dictGet (appendToRef inner r f) r' =
      if r = r' then some ((dictGet inner r').getD [] ++ [f])
      else dictGet inner r' := by
  induction inner with
  | nil =>
      by_cases h : r = r' <;> simp [appendToRef, dictGet, h]
  | cons e rest ih =>
      obtain ⟨r0, fs⟩ := e
      by_cases h0 : r0 = r
      · subst h0
        by_cases h1 : r0 = r'
        · subst h1
          simp [appendToRef, dictGet]
        · simp [appendToRef, dictGet, h1, Ne.symm h1]
      · by_cases h1 : r0 = r'
        · subst h1
          have : ¬ r = r0 := fun h => h0 h.symm
          simp [appendToRef, dictGet, h0, this]
        · simp [appendToRef, dictGet, h0, h1, ih]

/-- `partInsert` updates exactly the file's own `(model type, reference)`
group, appending the file at its end. -/
theorem partGet_partInsert (p : List (String × List (Int × List File))) (f : File)
    (mt : String) (r : Int) :
    partGet (partInsert p f) mt r =
      if f.model_type = mt ∧ f.reference = r then
        some ((partGet p mt r).getD [] ++ [f])
      else partGet p mt r := by
  induction p with
  | nil =>
      by_cases h1 : f.model_type = mt
      · by_cases h2 : f.reference = r
        · simp [partInsert, partGet, dictGet, h1, h2]
        · simp [partInsert, partGet, dictGet, h1, h2]
      · simp [partInsert, partGet, dictGet, h1]
  | cons e rest ih =>
      obtain ⟨mt0, inner⟩ := e
      by_cases h0 : mt0 = f.model_type
      · by_cases h1 : mt0 = mt
        · have hfm : f.model_type = mt := by rw [← h0, h1]
          simp only [partInsert, if_pos h0, partGet, dictGet, if_pos h1]
          rw [dictGet_appendToRef]
          by_cases h2 : f.reference = r
          · simp [hfm, h2]
          · simp [hfm, h2]
        · have hfm : ¬ f.model_type = mt := fun h => h1 (h0.trans h)
          simp [partInsert, partGet, dictGet, h0, h1, hfm]
      · by_cases h1 : mt0 = mt
        · have hfm : ¬ f.model_type = mt := fun h => h0 (h1.trans h.symm)
          have h0' : ¬ mt = f.model_type := by
            rw [← h1]
            exact h0
          simp [partInsert, partGet, dictGet, h0, h1, hfm, h0']
        · simp only [partInsert, if_neg h0, partGet, dictGet, if_neg h1]
          simpa [partGet] using ih

/-- Folding `partInsert` over a file list extends every group by exactly the
matching files, in encounter order. -/
theorem partGet_foldl (fs : List File) :
    ∀ (p : List (String × List (Int × List File))) (mt : String) (r : Int),
      partGet (fs.foldl partInsert p) mt r =
        combineGroup (partGet p mt r)
          (fs.filter (fun f => decide (f.model_type = mt ∧ f.reference = r))) := by
  induction fs with
  | nil =>
      intro p mt r
      cases h : partGet p mt r <;> simp [combineGroup, h]
  | cons f rest ih =>
      intro p mt r
      simp only [List.foldl_cons, ih, partGet_partInsert]
      by_cases hc : f.model_type = mt ∧ f.reference = r
      · rw [if_pos hc]
        cases h : partGet p mt r with
        | none => simp [combineGroup, h, hc, List.filter_cons]
        | some g => simp [combineGroup, h, hc, List.filter_cons]
      · rw [if_neg hc]
        simp [List.filter_cons, hc]

/-- `appendToRef` grows the inner size by one. -/
theorem innerSize_appendToRef (inner : List (Int × List File)) (r : Int) (f : File) :
    innerSize (appendToRef inner r f) = innerSize inner + 1 := by
  induction inner with
  | nil => simp [appendToRef, innerSize]
  | cons e rest ih =>
      obtain ⟨r0, fs⟩ := e
      by_cases h : r0 = r
      · simp [appendToRef, h, innerSize]
        omega
      · simp only [appendToRef, if_neg h, innerSize, List.map_cons, List.sum_cons]
        simp only [innerSize] at ih
        omega

/-- `partInsert` grows the partition size by one. -/
theorem partSize_partInsert (p : List (String × List (Int × List File))) (f : File) :
    partSize (partInsert p f) = partSize p + 1 := by
  induction p with
  | nil => simp [partInsert, partSize, innerSize]
  | cons e rest ih =>
      obtain ⟨mt0, inner⟩ := e
      by_cases h : mt0 = f.model_type
      · simp only [partInsert, if_pos h, partSize, List.map_cons, List.sum_cons,
          innerSize_appendToRef]
        omega
      · simp only [partInsert, if_neg h, partSize, List.map_cons, List.sum_cons]
        simp only [partSize] at ih
        omega

/-- The partition of a file list holds exactly as many files as the list. -/
theorem partSize_foldl (fs : List File) :
    ∀ p, partSize (fs.foldl partInsert p) = partSize p + fs.length := by
  induction fs with
  | nil => simp
  | cons f rest ih =>
      intro p
      simp only [List.foldl_cons, ih, partSize_partInsert, List.length_cons]
      omega

/-- The inner keys after `appendToRef`: unchanged when the reference is
present, appended otherwise. -/
theorem keys_appendToRef (inner : List (Int × List File)) (r : Int) (f : File) :
    (appendToRef inner r f).map Prod.fst =
      if r ∈ inner.map Prod.fst then inner.map Prod.fst
      else inner.map Prod.fst ++ [r] := by
  induction inner with
  | nil => simp [appendToRef]
  | cons e rest ih =>
      obtain ⟨r0, fs⟩ := e
      by_cases h : r0 = r
      · simp [appendToRef, h]
      · have : ¬ r = r0 := fun hr => h hr.symm
        by_cases hm : r ∈ rest.map Prod.fst
        · simp [appendToRef, h, ih, hm, this]
        · simp [appendToRef, h, ih, hm, this]

/-- The outer keys after `partInsert`: unchanged when the model type is
present, appended otherwise. -/
theorem keys_partInsert (p : List (String × List (Int × List File))) (f : File) :
    (partInsert p f).map Prod.fst =
      if f.model_type ∈ p.map Prod.fst then p.map Prod.fst
      else p.map Prod.fst ++ [f.model_type] := by
  induction p with
  | nil => simp [partInsert]
  | cons e rest ih =>
      obtain ⟨mt0, inner⟩ := e
      by_cases h : mt0 = f.model_type
      · simp [partInsert, h]
      · have : ¬ f.model_type = mt0 := fun hr => h hr.symm
        by_cases hm : f.model_type ∈ rest.map Prod.fst
        · simp [partInsert, h, ih, hm, this]
        · simp [partInsert, h, ih, hm, this]

/-- Every flattened key's model type is an outer key. -/
theorem fst_mem_of_mem_flatKeys (p : List (String × List (Int × List File)))
    (k : String × Int) (h : k ∈ flatKeys p) : k.1 ∈ p.map Prod.fst := by
  induction p with
  | nil => simpa [flatKeys] using h
  | cons e rest ih =>
      obtain ⟨mt0, inner⟩ := e
      simp only [flatKeys, List.mem_append, List.mem_map] at h
      rcases h with ⟨rg, _, hk⟩ | h
      · simp [← hk]
      · simp [ih h]

/-- Membership in the flattened keys of a cons partition, phrased through
the inner key list. -/
theorem mem_flatKeys_cons (mt0 : String) (inner : List (Int × List File))
    (rest : List (String × List (Int × List File))) (k : String × Int) :
    k ∈ flatKeys ((mt0, inner) :: rest) ↔
      (k.1 = mt0 ∧ k.2 ∈ inner.map Prod.fst) ∨ k ∈ flatKeys rest := by
  simp only [flatKeys, List.mem_append, List.mem_map]
  constructor
  · rintro (⟨e, he, hk⟩ | h)
    · exact Or.inl ⟨by rw [← hk], by rw [← hk]; exact ⟨e, he, rfl⟩⟩
    · exact Or.inr h
  · rintro (⟨h1, e, he, h2⟩ | h)
    · exact Or.inl ⟨e, he, by rw [Prod.ext_iff]; exact ⟨h1.symm, h2⟩⟩
    · exact Or.inr h

/-- Inserting a file adds exactly its own key to the flattened key set. -/
theorem mem_flatKeys_partInsert (p : List (String × List (Int × List File)))
    (f : File) (k : String × Int) :
    k ∈ flatKeys (partInsert p f) ↔ k = fileKey f ∨ k ∈ flatKeys p := by
  induction p with
  | nil =>
      simp [partInsert, flatKeys, fileKey, Prod.ext_iff, eq_comm]
  | cons e rest ih =>
      obtain ⟨mt0, inner⟩ := e
      by_cases h0 : mt0 = f.model_type
      · rw [show partInsert ((mt0, inner) :: rest) f =
            (mt0, appendToRef inner f.reference f) :: rest by simp [partInsert, h0]]
        rw [mem_flatKeys_cons, mem_flatKeys_cons, keys_appendToRef]
        rw [show (k = fileKey f) = (k.1 = f.model_type ∧ k.2 = f.reference) by
          simp [fileKey, Prod.ext_iff]]
        by_cases hin : f.reference ∈ inner.map Prod.fst
        · rw [if_pos hin]
          constructor
          · intro h
            tauto
          · rintro (⟨h1, h2⟩ | ⟨h1, h2⟩ | h)
            · exact Or.inl ⟨h1.trans h0.symm, h2 ▸ hin⟩
            · exact Or.inl ⟨h1, h2⟩
            · exact Or.inr h
        · rw [if_neg hin]
          constructor
          · rintro (⟨h1, h2⟩ | h)
            · rcases List.mem_append.mp h2 with h2' | h2'
              · exact Or.inr (Or.inl ⟨h1, h2'⟩)
              · exact Or.inl ⟨h1.trans h0, by simpa using h2'⟩
            · exact Or.inr (Or.inr h)
          · rintro (⟨h1, h2⟩ | ⟨h1, h2⟩ | h)
            · exact Or.inl ⟨h1.trans h0.symm, by simp [h2]⟩
            · exact Or.inl ⟨h1, List.mem_append.mpr (Or.inl h2)⟩
            · exact Or.inr h
      · rw [show partInsert ((mt0, inner) :: rest) f =
            (mt0, inner) :: partInsert rest f by simp [partInsert, h0]]
        rw [mem_flatKeys_cons, mem_flatKeys_cons, ih]
        tauto

/-- `partInsert` preserves partition well-formedness. -/
theorem partWF_partInsert (p : List (String × List (Int × List File))) (f : File)
    (h : PartWF p) : PartWF (partInsert p f) := by
  induction p with
  | nil =>
      refine ⟨by simp [partInsert], ?_⟩
      intro e he
      simp only [partInsert, List.mem_singleton] at he
      simp [he]
  | cons e rest ih =>
      obtain ⟨mt0, inner⟩ := e
      obtain ⟨hkeys, hinner⟩ := h
      simp only [List.map_cons, List.nodup_cons] at hkeys
      by_cases h0 : mt0 = f.model_type
      · rw [show partInsert ((mt0, inner) :: rest) f =
            (mt0, appendToRef inner f.reference f) :: rest by simp [partInsert, h0]]
        refine ⟨by simpa using hkeys, ?_⟩
        intro e he
        rcases List.mem_cons.mp he with he' | he'
        · rw [he']
          rw [show ((mt0, appendToRef inner f.reference f) : String × List (Int × List File)).2 =
              appendToRef inner f.reference f from rfl]
          rw [keys_appendToRef]
          by_cases hin : f.reference ∈ inner.map Prod.fst
          · rw [if_pos hin]
            exact hinner (mt0, inner) (List.mem_cons_self _ _)
          · rw [if_neg hin]
            have := hinner (mt0, inner) (List.mem_cons_self _ _)
            simp [List.nodup_append, this, hin]
        · exact hinner e (List.mem_cons_of_mem _ he')
      · rw [show partInsert ((mt0, inner) :: rest) f =
            (mt0, inner) :: partInsert rest f by simp [partInsert, h0]]
        have hwfrest : PartWF rest :=
          ⟨hkeys.2, fun e he => hinner e (List.mem_cons_of_mem _ he)⟩
        obtain ⟨hk', hi'⟩ := ih hwfrest
        refine ⟨?_, ?_⟩
        · simp only [List.map_cons, List.nodup_cons]
          refine ⟨?_, hk'⟩
          rw [keys_partInsert]
          by_cases hm : f.model_type ∈ rest.map Prod.fst
          · rw [if_pos hm]
            exact hkeys.1
          · rw [if_neg hm]
            simp [hkeys.1, h0]
        · intro e he
          rcases List.mem_cons.mp he with he' | he'
          · rw [he']
            exact hinner (mt0, inner) (List.mem_cons_self _ _)
          · exact hi' e he'

/-- Folding `partInsert` preserves partition well-formedness. -/
theorem partWF_foldl (fs : List File) :
    ∀ p, PartWF p → PartWF (fs.foldl partInsert p) := by
  induction fs with
  | nil =>
      intro p h
      simpa using h
  | cons f rest ih =>
      intro p h
      exact ih _ (partWF_partInsert p f h)

/-- A well-formed partition has no duplicate flattened keys. -/
theorem flatKeys_nodup (p : List (String × List (Int × List File)))
    (h : PartWF p) : (flatKeys p).Nodup := by
  induction p with
  | nil => simp [flatKeys]
  | cons e rest ih =>
      obtain ⟨mt0, inner⟩ := e
      obtain ⟨hkeys, hinner⟩ := h
      simp only [List.map_cons, List.nodup_cons] at hkeys
      have hwfrest : PartWF rest :=
        ⟨hkeys.2, fun e he => hinner e (List.mem_cons_of_mem _ he)⟩
      simp only [flatKeys]
      rw [List.nodup_append]
      refine ⟨?_, ih hwfrest, ?_⟩
      · have h1 : (inner.map Prod.fst).Nodup :=
          hinner (mt0, inner) (List.mem_cons_self _ _)
        have h2 : inner.map (fun e => (mt0, e.1)) =
            (inner.map Prod.fst).map (fun r => (mt0, r)) := by
          rw [List.map_map]
          rfl
        rw [h2]
        exact List.Nodup.map (fun a b hab => by simpa using hab) h1
      · intro a ha hb
        obtain ⟨e', _, hk⟩ := List.mem_map.mp ha
        have := fst_mem_of_mem_flatKeys rest a hb
        rw [← hk] at this
        exact hkeys.1 this

/-- The flattened keys of a fold are the starting keys plus the folded
files' keys. -/
theorem mem_flatKeys_foldl (fs : List File) :
    ∀ p (k : String × Int), k ∈ flatKeys (fs.foldl partInsert p) ↔
      k ∈ flatKeys p ∨ k ∈ fs.map fileKey := by
  induction fs with
  | nil =>
      intro p k
      simp
  | cons f rest ih =>
      intro p k
      simp only [List.foldl_cons, ih, mem_flatKeys_partInsert, List.map_cons,
        List.mem_cons]
      tauto

/-- The partition of a file list has exactly one group per distinct
`(model type, reference)` pair of the list. -/
theorem flatKeys_length_partition (fs : List File) :
    (flatKeys (partitionFiles fs)).length = (fs.map fileKey).dedup.length := by
  have hwf : PartWF (partitionFiles fs) :=
    partWF_foldl fs [] ⟨by simp, by simp⟩
  have hnd := flatKeys_nodup _ hwf
  have hmem : ∀ k, k ∈ flatKeys (partitionFiles fs) ↔ k ∈ (fs.map fileKey).dedup := by
    intro k
    rw [List.mem_dedup]
    have := mem_flatKeys_foldl fs [] k
    simpa [flatKeys, partitionFiles] using this
  exact ((List.perm_ext_iff_of_nodup hnd (List.nodup_dedup _)).mpr hmem).length_eq

/-- Looking up a member of a mapping with distinct keys finds it. -/
theorem dictGet_of_mem_nodup {κ α : Type} [DecidableEq κ] (m : List (κ × α)) (k : κ)
    (v : α) (hmem : (k, v) ∈ m) (hnd : (m.map Prod.fst).Nodup) :
    dictGet m k = some v := by
  induction m with
  | nil => cases hmem
  | cons e rest ih =>
      obtain ⟨k0, v0⟩ := e
      simp only [List.map_cons, List.nodup_cons] at hnd
      rcases List.mem_cons.mp hmem with he | he
      · obtain ⟨h1, h2⟩ := Prod.mk.injEq .. ▸ he
        simp [dictGet, h1.symm, h2]
      · have hk : ¬ k0 = k := by
          intro hc
          exact hnd.1 (hc ▸ List.mem_map_of_mem Prod.fst he)
        simp [dictGet, hk, ih he hnd.2]

/-- In a well-formed partition, every stored group is found by lookup. -/
theorem partGet_of_entry (p : List (String × List (Int × List File)))
    (hwf : PartWF p) (mt : String) (inner : List (Int × List File)) (r : Int)
    (g : List File) (h1 : (mt, inner) ∈ p) (h2 : (r, g) ∈ inner) :
    partGet p mt r = some g := by
  have houter := dictGet_of_mem_nodup p mt inner h1 hwf.1
  have hinner := dictGet_of_mem_nodup inner r g h2 (hwf.2 _ h1)
  simp [partGet, houter, hinner]

/-- A group found in the partition of `fs` is exactly the ordered filter of
`fs` to its key. -/
theorem group_eq_filter (fs : List File) (mt : String) (r : Int) (g : List File)
    (h : partGet (partitionFiles fs) mt r = some g) :
    g = fs.filter (fun f => decide (f.model_type = mt ∧ f.reference = r)) := by
  have hpg : partGet ([] : List (String × List (Int × List File))) mt r = none := rfl
  rw [partitionFiles, partGet_foldl fs [] mt r, hpg] at h
  simp only [combineGroup] at h
  split at h
  · exact Option.noConfusion h
  · injection h with h'
    exact h'.symm

/-- When all steps of a file list are present, sorting succeeds. -/
theorem pySortByStep_ok_of_steps (fs : List File)
    (h : ∀ f ∈ fs, f.step.isSome) :
    pySortByStep fs = Except.ok (fs.insertionSort stepRel) := by
  unfold pySortByStep
  rw [if_neg]
  rintro ⟨-, hany⟩
  obtain ⟨f, hf, hfn⟩ := List.any_eq_true.mp hany
  have := h f hf
  simp [Option.isNone_iff_eq_none.mp hfn] at this

/-- Field characterization of a successfully built `TimeSeries`. -/
theorem mkTimeSeries_ok (ctype : String) (mem : Option Nat) (dd : Int) (mt : String)
    (r : Int) (fs : List File) (ts : TimeSeries)
    (h : mkTimeSeries ctype mem dd mt r fs = Except.ok ts) :
    ts.files = fs.insertionSort stepRel ∧ ts.reference = r ∧ ts.model_type = mt ∧
      ts.configuration = ctype ∧ ts.area = fs.head?.map (fun f => f.area) ∧
      ts.member = mem := by
  unfold mkTimeSeries at h
  cases hs : pySortByStep fs with
  | error e =>
      rw [hs] at h
      exact Except.noConfusion h
  | ok sorted =>
      rw [hs] at h
      injection h with h'
      rw [← h']
      exact ⟨pySortByStep_ok fs sorted hs, rfl, rfl, rfl, rfl, rfl⟩

/-- The inner loop of `get_all_timeseries` succeeds when every group sorts,
emitting one series per reference with the group sizes adding up. -/
theorem buildInner_ok (ctype : String) (mem : Option Nat) (dd : Int) (mt : String)
    (inner : List (Int × List File))
    (hok : ∀ e ∈ inner, ∃ sf, pySortByStep e.2 = Except.ok sf) :
    ∃ l, buildInner ctype mem dd mt inner = Except.ok l ∧
      l.length = inner.length ∧
      (l.map (fun ts => ts.files.length)).sum = innerSize inner ∧
      ∀ ts ∈ l, ∃ rg, rg ∈ inner ∧
        mkTimeSeries ctype mem dd mt rg.1 rg.2 = Except.ok ts := by
  induction inner with
  | nil =>
      exact ⟨[], rfl, rfl, by simp [innerSize], by simp⟩
  | cons e rest ih =>
      obtain ⟨r, fs⟩ := e
      obtain ⟨sf, hsf⟩ := hok (r, fs) (List.mem_cons_self _ _)
      obtain ⟨l, hbuild, hlen, hsum, hmem⟩ :=
        ih (fun e he => hok e (List.mem_cons_of_mem _ he))
      have hmk : mkTimeSeries ctype mem dd mt r fs =
          Except.ok ⟨sf, r, ctype, mt, fs.head?.map (fun f => f.area), mem, dd⟩ := by
        unfold mkTimeSeries
        rw [hsf]
      refine ⟨⟨sf, r, ctype, mt, fs.head?.map (fun f => f.area), mem, dd⟩ :: l,
        ?_, ?_, ?_, ?_⟩
      · simp only [buildInner, hmk, hbuild, bind, Except.bind]
      · simp [hlen]
      · have hsflen : sf.length = fs.length := by
          rw [pySortByStep_ok fs sf hsf, List.length_insertionSort]
        have hrec : (List.map (fun ts => ts.files.length)
            ((⟨sf, r, ctype, mt, fs.head?.map (fun f => f.area), mem, dd⟩ : TimeSeries) :: l)).sum
            = sf.length + (List.map (fun ts => ts.files.length) l).sum := by
          simp
        rw [hrec, hsflen, hsum]
        simp [innerSize]
      · intro ts hts
        rcases List.mem_cons.mp hts with hts' | hts'
        · exact ⟨(r, fs), List.mem_cons_self _ _, by rw [hmk, hts']⟩
        · obtain ⟨rg, hrg, hmk'⟩ := hmem ts hts'
          exact ⟨rg, List.mem_cons_of_mem _ hrg, hmk'⟩

/-- The outer loop of `get_all_timeseries` succeeds when every group sorts,
emitting one series per flattened key with all group sizes adding up. -/
theorem buildOuter_ok (ctype : String) (mem : Option Nat) (dd : Int)
    (p : List (String × List (Int × List File)))
    (hok : ∀ e ∈ p, ∀ rg ∈ e.2, ∃ sf, pySortByStep rg.2 = Except.ok sf) :
    ∃ l, buildOuter ctype mem dd p = Except.ok l ∧
      l.length = (flatKeys p).length ∧
      (l.map (fun ts => ts.files.length)).sum = partSize p ∧
      ∀ ts ∈ l, ∃ mt' inner rg, (mt', inner) ∈ p ∧ rg ∈ inner ∧
        mkTimeSeries ctype mem dd mt' rg.1 rg.2 = Except.ok ts := by
  induction p with
  | nil =>
      exact ⟨[], rfl, rfl, by simp [partSize], by simp⟩
  | cons e rest ih =>
      obtain ⟨mt0, inner⟩ := e
      obtain ⟨li, hbi, hli, hsi, hmi⟩ :=
        buildInner_ok ctype mem dd mt0 inner
          (fun rg hrg => hok (mt0, inner) (List.mem_cons_self _ _) rg hrg)
      obtain ⟨lo, hbo, hlo, hso, hmo⟩ :=
        ih (fun e he rg hrg => hok e (List.mem_cons_of_mem _ he) rg hrg)
      refine ⟨li ++ lo, ?_, ?_, ?_, ?_⟩
      · simp only [buildOuter, hbi, hbo, bind, Except.bind]
      · simp [flatKeys, hli, hlo]
      · simp only [List.map_append, List.sum_append, partSize, List.map_cons,
          List.sum_cons, hsi, hso]
      · intro ts hts
        rcases List.mem_append.mp hts with hts' | hts'
        · obtain ⟨rg, hrg, hmk⟩ := hmi ts hts'
          exact ⟨mt0, inner, rg, List.mem_cons_self _ _, hrg, hmk⟩
        · obtain ⟨mt', inner', rg, hin, hrg, hmk⟩ := hmo ts hts'
          exact ⟨mt', inner', rg, List.mem_cons_of_mem _ hin, hrg, hmk⟩

/-- C3 (amended): on a populated configuration all of whose files have a
present step, `get_all_timeseries` returns (without a backend call) exactly
one `TimeSeries` per distinct `(model type, reference)` pair, the series'
file counts sum to the configuration's file count, and every series is
ordered by ascending step. -/
theorem get_all_timeseries_partition (c : Configuration) (hne : c.files ≠ [])
    (hstep : ∀ kv ∈ c.files, (kv.2).step.isSome) :
    ∃ l, c.get_all_timeseries = (Except.ok l, c, 0) ∧
      l.length = ((c.files.map (fun kv => fileKey kv.2)).dedup).length ∧
      (l.map (fun ts => ts.files.length)).sum = c.files.length ∧
      ∀ ts ∈ l, ts.files.Pairwise (fun a b => a.step.getD 0 ≤ b.step.getD 0) := by
  have hl := loadFiles_of_ne c hne
  have hwf : PartWF (partitionFiles (dictValues c.files)) :=
    partWF_foldl _ [] ⟨by simp, by simp⟩
  have hstep' : ∀ f ∈ dictValues c.files, f.step.isSome = true := by
    intro f hf
    obtain ⟨kv, hkv, hsnd⟩ := List.mem_map.mp hf
    exact hsnd ▸ hstep kv hkv
  have hok : ∀ e ∈ partitionFiles (dictValues c.files), ∀ rg ∈ e.2,
      ∃ sf, pySortByStep rg.2 = Except.ok sf := by
    rintro ⟨mt, inner⟩ he ⟨r, g⟩ hrg
    have hpg := partGet_of_entry _ hwf mt inner r g he hrg
    have hgf := group_eq_filter _ mt r g hpg
    refine ⟨_, pySortByStep_ok_of_steps g ?_⟩
    intro f hf
    rw [hgf] at hf
    exact hstep' f (List.mem_of_mem_filter hf)
  obtain ⟨l, hb, hlen, hsum, hmem⟩ := buildOuter_ok c.type c.member c.day_date _ hok
  refine ⟨l, ?_, ?_, ?_, ?_⟩
  · simp only [Configuration.get_all_timeseries, hl, hb]
  · rw [hlen, flatKeys_length_partition]
    have : (dictValues c.files).map fileKey = c.files.map (fun kv => fileKey kv.2) := by
      rw [dictValues, List.map_map]
      rfl
    rw [this]
  · have h1 : partSize (partitionFiles (dictValues c.files)) =
        (dictValues c.files).length := by
      rw [partitionFiles, partSize_foldl]
      simp [partSize]
    rw [hsum, h1, dictValues, List.length_map]
  · intro ts hts
    obtain ⟨mt, inner, rg, _, _, hmk⟩ := hmem ts hts
    obtain ⟨hfiles, -⟩ := mkTimeSeries_ok _ _ _ _ _ _ _ hmk
    rw [hfiles]
    exact insertionSort_step_pairwise _

/-- C3 (counterexample): with two files of the same `(model type,
reference)` pair, one of which has an absent step, `get_all_timeseries` does
not return its M series — the sort inside the `TimeSeries` constructor
raises `TypeError`. -/
theorem get_all_timeseries_absent_step_counterexample :
    (c10ConfPair.get_all_timeseries).1 = Except.error PyError.typeErrorCmp ∧
    c10ConfPair.files.length = 2 ∧
    (c10ConfPair.files.map (fun kv => fileKey kv.2)).dedup.length = 1 := by
  refine ⟨by decide, by decide, by decide⟩

/-- C3 (witness): `c4Conf` holds two step-bearing files of one pair, so the
amended claim yields exactly one series whose file count is 2. -/
theorem get_all_timeseries_partition_witness :
    (c4Conf.get_all_timeseries).1.map
      (fun l => (l.length, (l.map (fun ts => ts.files.length)).sum)) =
      Except.ok (1, 2) := by
  obtain ⟨l, h1, h2, h3, -⟩ := get_all_timeseries_partition c4Conf (by decide) (by decide)
  have hfst : (c4Conf.get_all_timeseries).1 = Except.ok l := by
    rw [h1]
  rw [hfst]
  show Except.ok (l.length, (l.map (fun ts => ts.files.length)).sum) = _
  rw [h2, h3]
  decide

/-- C4 (amended): every series `get_all_timeseries` emits carries `area`
equal to the area of the **first file of its partition in encounter order**
(the pre-sort head), not of the file with the smallest step. -/
theorem get_all_timeseries_area (c : Configuration) (hne : c.files ≠ [])
    (hstep : ∀ kv ∈ c.files, (kv.2).step.isSome) :
    ∃ l, c.get_all_timeseries = (Except.ok l, c, 0) ∧
      ∀ ts ∈ l, ts.area = (((dictValues c.files).filter
        (fun f => decide (f.model_type = ts.model_type ∧ f.reference = ts.reference))).head?).map
          (fun f => f.area) := by
  have hl := loadFiles_of_ne c hne
  have hwf : PartWF (partitionFiles (dictValues c.files)) :=
    partWF_foldl _ [] ⟨by simp, by simp⟩
  have hstep' : ∀ f ∈ dictValues c.files, f.step.isSome = true := by
    intro f hf
    obtain ⟨kv, hkv, hsnd⟩ := List.mem_map.mp hf
    exact hsnd ▸ hstep kv hkv
  have hok : ∀ e ∈ partitionFiles (dictValues c.files), ∀ rg ∈ e.2,
      ∃ sf, pySortByStep rg.2 = Except.ok sf := by
    rintro ⟨mt, inner⟩ he ⟨r, g⟩ hrg
    have hpg := partGet_of_entry _ hwf mt inner r g he hrg
    have hgf := group_eq_filter _ mt r g hpg
    refine ⟨_, pySortByStep_ok_of_steps g ?_⟩
    intro f hf
    rw [hgf] at hf
    exact hstep' f (List.mem_of_mem_filter hf)
  obtain ⟨l, hb, _, _, hmem⟩ := buildOuter_ok c.type c.member c.day_date _ hok
  refine ⟨l, ?_, ?_⟩
  · simp only [Configuration.get_all_timeseries, hl, hb]
  · intro ts hts
    obtain ⟨mt, inner, rg, hin, hrg, hmk⟩ := hmem ts hts
    obtain ⟨-, href, hmt, -, harea, -⟩ := mkTimeSeries_ok _ _ _ _ _ _ _ hmk
    have hpg := partGet_of_entry _ hwf mt inner rg.1 rg.2 hin
      (by simpa using hrg)
    have hgf := group_eq_filter _ mt rg.1 rg.2 hpg
    rw [harea, hgf, hmt, href]

/-- C4 (counterexample): in `c4Conf` the partition's encounter-order head is
`c4FileA` (area `A`, step 5) while the smallest-step file is `c4FileB`
(area `B`, step 1); the emitted series carries area `A`, not the area of
the post-sort first file. -/
theorem area_presort_counterexample :
    (c4Conf.get_all_timeseries).1 = Except.ok [c4Series] ∧
    c4Series.files.head?.map (fun f => f.area) = some "B" ∧
    c4Series.area = some "A" ∧
    ¬ c4Series.area = c4Series.files.head?.map (fun f => f.area) := by
  refine ⟨by decide, by decide, by decide, by decide⟩

/-- The single series `c5Conf.get_all_timeseries` emits, for the C4
witness. -/
def c4wSeries : TimeSeries :=
  { files := [c5File], reference := 0, configuration := "medium_range",
    model_type := "channel_rt", area := some "conus", member := none, day_date := 0 }

/-- C4 (witness): the amended claim applied to `c5Conf` gives the emitted
series the area of the encounter-order head of its partition. -/
theorem get_all_timeseries_area_witness :
    c4wSeries.area = (((dictValues c5Conf.files).filter
      (fun f => decide (f.model_type = c4wSeries.model_type ∧
        f.reference = c4wSeries.reference))).head?).map (fun f => f.area) := by
  obtain ⟨l, h1, h2⟩ := get_all_timeseries_area c5Conf (by decide) (by decide)
  have heval : c5Conf.get_all_timeseries = (Except.ok [c4wSeries], c5Conf, 0) := by
    decide
  have hl : (Except.ok l : Except PyError (List TimeSeries)) =
      Except.ok [c4wSeries] := by
    have := heval.symm.trans h1
    exact congrArg Prod.fst this |>.symm
  injection hl with hl'
  exact h2 c4wSeries (by rw [hl']; exact List.mem_singleton_self _)

/-! ## Selection lemmas (C8) -/

/-- Two folds agree when their step functions agree on the list members. -/
theorem foldl_congr_mem {α β : Type} (l : List α) (f g : β → α → β)
    (h : ∀ v ∈ l, ∀ b, f b v = g b v) (a : β) : l.foldl f a = l.foldl g a := by
  induction l generalizing a with
  | nil => rfl
  | cons x rest ih =>
      simp only [List.foldl_cons]
      rw [h x (List.mem_cons_self _ _) a]
      exact ih (fun v hv b => h v (List.mem_cons_of_mem _ hv) b) _

/-- A guarded fold is the fold over the filtered list. -/
theorem foldl_if_filter {α β : Type} (p : α → Bool) (g : β → α → β) :
    ∀ (l : List α) (a : β),
      l.foldl (fun acc x => if p x then g acc x else acc) a =
        (l.filter p).foldl g a := by
  intro l
  induction l with
  | nil => intro a; rfl
  | cons x rest ih =>
      intro a
      simp only [List.foldl_cons, List.filter_cons]
      cases hp : p x <;> simp [hp, ih]

/-- A fold that never changes the accumulator returns it. -/
theorem foldl_id {α β : Type} (l : List α) (a : β) :
    l.foldl (fun acc _ => acc) a = a := by
  induction l <;> simp_all

/-- Inserting a fresh key appends. -/
theorem dictInsert_fresh {κ α : Type} [DecidableEq κ] (m : List (κ × α)) (k : κ)
    (v : α) (h : k ∉ m.map Prod.fst) : dictInsert m k v = m ++ [(k, v)] := by
  induction m with
  | nil => rfl
  | cons kv rest ih =>
      obtain ⟨k0, v0⟩ := kv
      simp only [List.map_cons, List.mem_cons] at h
      push_neg at h
      have hne : ¬ k0 = k := fun hc => h.1 hc.symm
      simp [dictInsert, hne, ih h.2]

/-- Folding keyed insertions of fresh, distinct values appends them. -/
theorem foldl_dictInsert_key {κ α : Type} [DecidableEq κ] (key : α → κ) :
    ∀ (vals : List α) (acc : List (κ × α)), (vals.map key).Nodup →
      (∀ v ∈ vals, key v ∉ acc.map Prod.fst) →
      vals.foldl (fun m v => dictInsert m (key v) v) acc =
        acc ++ vals.map (fun v => (key v, v)) := by
  intro vals
  induction vals with
  | nil => intro acc _ _; simp
  | cons v rest ih =>
      intro acc hnd hfresh
      simp only [List.map_cons, List.nodup_cons] at hnd
      simp only [List.foldl_cons]
      rw [dictInsert_fresh acc (key v) v (hfresh v (List.mem_cons_self _ _))]
      rw [ih (acc ++ [(key v, v)]) hnd.2 ?fresh']
      · simp
      case fresh' =>
        intro w hw
        simp only [List.map_append, List.mem_append]
        push_neg
        refine ⟨hfresh w (List.mem_cons_of_mem _ hw), ?_⟩
        simp only [List.map_cons, List.map_nil, List.mem_singleton]
        intro hc
        exact hnd.1 (hc ▸ List.mem_map_of_mem key hw)

/-- The key-pair rebuild of a well-keyed mapping's values is the mapping. -/
theorem map_key_pair {κ α : Type} (key : α → κ) (m : List (κ × α))
    (h : ∀ kv ∈ m, kv.1 = key kv.2) :
    (m.map Prod.snd).map (fun v => (key v, v)) = m := by
  induction m with
  | nil => rfl
  | cons kv rest ih =>
      obtain ⟨k, v⟩ := kv
      have hk := h (k, v) (List.mem_cons_self _ _)
      simp only [List.map_cons]
      rw [ih (fun kv hkv => h kv (List.mem_cons_of_mem _ hkv))]
      simp only at hk
      rw [← hk]

/-- The keys of a well-keyed mapping are the key images of its values. -/
theorem map_key_values {κ α : Type} (key : α → κ) (m : List (κ × α))
    (h : ∀ kv ∈ m, kv.1 = key kv.2) :
    (m.map Prod.snd).map key = m.map Prod.fst := by
  induction m with
  | nil => rfl
  | cons kv rest ih =>
      obtain ⟨k, v⟩ := kv
      have hk := h (k, v) (List.mem_cons_self _ _)
      simp only at hk
      simp only [List.map_cons, hk.symm]
      rw [ih (fun kv hkv => h kv (List.mem_cons_of_mem _ hkv))]

/-- Filtering drops only zero-valued entries, so value sums are unchanged. -/
theorem sum_filter_of_zero {α : Type} (p : α → Bool) (v : α → Nat) (l : List α)
    (h : ∀ x ∈ l, p x = false → v x = 0) :
    ((l.filter p).map v).sum = (l.map v).sum := by
  induction l with
  | nil => rfl
  | cons x rest ih =>
      have ih' := ih (fun y hy => h y (List.mem_cons_of_mem _ hy))
      simp only [List.filter_cons]
      cases hp : p x with
      | true => simp [ih']
      | false =>
          simp only [Bool.false_eq_true, if_false, List.map_cons, List.sum_cons, ih',
            h x (List.mem_cons_self _ _) hp]
          omega

/-- `add_file` folds act on the file mapping alone. -/
theorem foldl_add_file_eq (vals : List File) :
    ∀ acc : DConfiguration,
      vals.foldl (fun a f => a.add_file f) acc =
        { acc with files := vals.foldl (fun m f => dictInsert m f.name f) acc.files } := by
  induction vals with
  | nil => intro acc; rfl
  | cons f rest ih =>
      intro acc
      simp only [List.foldl_cons]
      rw [ih]
      rfl

/-- `add_configuration` folds act on the configuration mapping alone. -/
theorem foldl_add_configuration_eq (vals : List DConfiguration) :
    ∀ acc : DDay,
      vals.foldl (fun a c => a.add_configuration c) acc =
        { acc with configurations :=
            vals.foldl (fun m c => dictInsert m c.type c) acc.configurations } := by
  induction vals with
  | nil => intro acc; rfl
  | cons c rest ih =>
      intro acc
      simp only [List.foldl_cons]
      rw [ih]
      rfl

/-- An `add_day` fold over transformed days rebuilds the day mapping from
the transformed values. -/
theorem foldl_add_day_map (F : DDay → DDay) (l : List DDay) :
    ∀ init : Directory,
      l.foldl (fun acc d => acc.add_day (F d)) init =
        { init with days :=
            (l.map F).foldl (fun m d => dictInsert m d.date d) init.days } := by
  induction l with
  | nil => intro init; rfl
  | cons d rest ih =>
      intro init
      simp only [List.foldl_cons, List.map_cons]
      rw [ih]
      rfl

/-- `add_day` folds act on the day mapping alone. -/
theorem foldl_add_day_eq (vals : List DDay) :
    ∀ acc : Directory,
      vals.foldl (fun a d => a.add_day d) acc =
        { acc with days := vals.foldl (fun m d => dictInsert m d.date d) acc.days } := by
  induction vals with
  | nil => intro acc; rfl
  | cons d rest ih =>
      intro acc
      simp only [List.foldl_cons]
      rw [ih]
      rfl

/-- Selecting with the always-true predicate rebuilds a well-keyed
configuration unchanged. -/
theorem dconf_select_files_true (c : DConfiguration) (h : confKeysOK c) :
    c.select_files (fun _ => true) = c := by
  obtain ⟨h1, h2⟩ := h
  unfold DConfiguration.select_files
  rw [foldl_congr_mem _ _ (fun a f => a.add_file f) (by intro v hv b; simp)]
  rw [foldl_add_file_eq]
  have hnd : ((dictValues c.files).map (fun f => f.name)).Nodup := by
    have := map_key_values (fun f => f.name) c.files h1
    rw [dictValues, this]
    exact h2
  rw [show (fun (m : List (String × File)) (f : File) => dictInsert m f.name f) =
      (fun m f => dictInsert m ((fun g => g.name) f) f) from rfl]
  rw [foldl_dictInsert_key (fun f => f.name) (dictValues c.files) [] hnd (by simp)]
  rw [List.nil_append, dictValues, map_key_pair (fun f => f.name) c.files h1]

/-- Selecting with the always-false predicate empties a configuration. -/
theorem dconf_select_files_false (c : DConfiguration) (p : File → Bool)
    (hp : ∀ f, p f = false) :
    (c.select_files p).files = [] := by
  unfold DConfiguration.select_files
  rw [foldl_congr_mem _ _ (fun a _ => a) (by intro v hv b; simp [hp v])]
  rw [foldl_id]

/-- The configurations surviving an always-true selection on a well-keyed
day: exactly the nonempty ones, re-keyed by type. -/
theorem dday_select_true_configurations (d : DDay) (h : dayKeysOK d) :
    (d.select_files (fun _ => true)).configurations =
      ((dictValues d.configurations).filter
        (fun c => decide (0 < c.files.length))).map (fun c => (c.type, c)) := by
  obtain ⟨h1, h2⟩ := h
  unfold DDay.select_files
  rw [foldl_congr_mem _ _
    (fun acc c => if decide (0 < c.files.length) then acc.add_configuration c else acc)
    ?hcongr]
  case hcongr =>
    intro v hv b
    have hv' : confKeysOK v := by
      obtain ⟨kv, hkv, hsnd⟩ := List.mem_map.mp hv
      exact hsnd ▸ (h1 kv hkv).2
    simp only [dconf_select_files_true v hv']
    by_cases hc : 0 < v.files.length <;> simp [hc]
  rw [foldl_if_filter]
  rw [foldl_add_configuration_eq]
  have hnd : (((dictValues d.configurations).filter
      (fun c => decide (0 < c.files.length))).map DConfiguration.type).Nodup := by
    refine List.Nodup.sublist (List.Sublist.map _ (List.filter_sublist _)) ?_
    have := map_key_values DConfiguration.type d.configurations
      (fun kv hkv => (h1 kv hkv).1)
    rw [dictValues, this]
    exact h2
  rw [show (fun (m : List (String × DConfiguration)) (c : DConfiguration) =>
      dictInsert m c.type c) =
      (fun m c => dictInsert m (DConfiguration.type c) c) from rfl]
  rw [foldl_dictInsert_key DConfiguration.type _ _ hnd (by simp)]
  simp

/-- An always-false selection drops every configuration of a day. -/
theorem dday_select_false_configurations (d : DDay) :
    (d.select_files (fun _ => false)).configurations = [] := by
  unfold DDay.select_files
  rw [foldl_congr_mem _ _ (fun acc _ => acc) ?hcongr]
  · rw [foldl_id]
  case hcongr =>
    intro v hv b
    simp [dconf_select_files_false v _ (fun _ => rfl)]

/-- The total file count of a day is the sum of its configurations' file
counts. -/
theorem dday_all_files_length (d : DDay) :
    d.all_files.length =
      ((dictValues d.configurations).map (fun c => c.files.length)).sum := by
  unfold DDay.all_files
  rw [List.length_flatMap]
  refine congrArg List.sum (List.map_congr_left ?_)
  intro c _
  simp [DConfiguration.all_files, dictValues]

/-- An always-true selection preserves a well-keyed day's total file
count. -/
theorem dday_select_true_count (d : DDay) (h : dayKeysOK d) :
    (d.select_files (fun _ => true)).all_files.length = d.all_files.length := by
  rw [dday_all_files_length, dday_all_files_length,
    dday_select_true_configurations d h]
  have hm : ((dictValues (((dictValues d.configurations).filter
      (fun c => decide (0 < c.files.length))).map (fun c => (c.type, c)))).map
      (fun c => c.files.length)) =
      (((dictValues d.configurations).filter
      (fun c => decide (0 < c.files.length))).map (fun c => c.files.length)) := by
    simp only [dictValues, List.map_map]
    rfl
  rw [hm]
  exact sum_filter_of_zero _ _ _ (fun c _ hc => by simpa using hc)

/-- The day-selection fold never changes the date slot of its
accumulator. -/
theorem foldl_select_step_date (p : File → Bool) (l : List DConfiguration) :
    ∀ acc : DDay,
      (l.foldl (fun acc c =>
        let nc := c.select_files p
        if 0 < nc.files.length then acc.add_configuration nc else acc) acc).date =
        acc.date := by
  induction l with
  | nil => intro acc; rfl
  | cons c rest ih =>
      intro acc
      simp only [List.foldl_cons]
      rw [ih]
      by_cases hc : 0 < (c.select_files p).files.length <;>
        simp [hc, DDay.add_configuration]

/-- File selection keeps a day's date. -/
theorem dday_select_files_date (d : DDay) (p : File → Bool) :
    (d.select_files p).date = d.date := by
  unfold DDay.select_files
  exact foldl_select_step_date p _ _

/-- The days surviving an always-true selection on a well-keyed directory:
exactly those whose selection kept a configuration, re-keyed by date. -/
theorem directory_select_true_days (dir : Directory) (h : dirKeysOK dir) :
    (dir.select_files (fun _ => true)).days =
      (((dictValues dir.days).filter
        (fun d => decide (0 < (d.select_files (fun _ => true)).configurations.length))).map
        (fun d => (d.date, d.select_files (fun _ => true)))) := by
  obtain ⟨h1, h2⟩ := h
  unfold Directory.select_files
  rw [foldl_congr_mem _ _
    (fun acc d => if decide (0 < (d.select_files (fun _ => true)).configurations.length)
      then acc.add_day (d.select_files (fun _ => true)) else acc)
    (by intro v hv b; by_cases hc :
      0 < (v.select_files (fun _ => true)).configurations.length <;> simp [hc])]
  rw [foldl_if_filter]
  rw [foldl_add_day_map (fun d => d.select_files (fun _ => true))]
  rw [show (fun (m : List (Int × DDay)) (d : DDay) => dictInsert m d.date d) =
      (fun m d => dictInsert m (DDay.date d) d) from rfl]
  have hdates :
      ((((dictValues dir.days).filter (fun d =>
        decide (0 < (d.select_files (fun _ => true)).configurations.length))).map
        (fun d => d.select_files (fun _ => true))).map DDay.date) =
      (((dictValues dir.days).filter (fun d =>
        decide (0 < (d.select_files (fun _ => true)).configurations.length))).map
        DDay.date) := by
    rw [List.map_map]
    refine List.map_congr_left ?_
    intro d _
    exact dday_select_files_date d _
  have hnd : (((((dictValues dir.days).filter (fun d =>
      decide (0 < (d.select_files (fun _ => true)).configurations.length)))).map
      (fun d => d.select_files (fun _ => true))).map DDay.date).Nodup := by
    rw [hdates]
    refine List.Nodup.sublist (List.Sublist.map _ (List.filter_sublist _)) ?_
    have := map_key_values DDay.date dir.days (fun kv hkv => (h1 kv hkv).1)
    rw [dictValues, this]
    exact h2
  rw [foldl_dictInsert_key DDay.date _ _ hnd (by simp)]
  simp only [List.nil_append, List.map_map]
  refine List.map_congr_left ?_
  intro d _
  show ((d.select_files (fun _ => true)).date, d.select_files (fun _ => true)) =
    (d.date, d.select_files (fun _ => true))
  rw [dday_select_files_date]

/-- The total file count of a directory is the sum over its days. -/
theorem directory_all_files_length (dir : Directory) :
    dir.all_files.length =
      ((dictValues dir.days).map (fun d => d.all_files.length)).sum := by
  unfold Directory.all_files
  rw [List.length_flatMap]
  exact congrArg List.sum (List.map_congr_left (fun d _ => rfl))

/-- An always-true selection preserves a well-keyed directory's total file
count. -/
theorem directory_select_true_count (dir : Directory) (h : dirKeysOK dir) :
    (dir.select_files (fun _ => true)).all_files.length = dir.all_files.length := by
  have hdayWF : ∀ v ∈ dictValues dir.days, dayKeysOK v := by
    intro v hv
    obtain ⟨kv, hkv, hsnd⟩ := List.mem_map.mp hv
    exact hsnd ▸ (h.1 kv hkv).2
  rw [directory_all_files_length, directory_all_files_length,
    directory_select_true_days dir h]
  set l := (dictValues dir.days).filter (fun d =>
    decide (0 < (d.select_files (fun _ => true)).configurations.length)) with hldef
  have hsubl : ∀ d ∈ l, d ∈ dictValues dir.days := by
    intro d hd
    rw [hldef] at hd
    exact List.mem_of_mem_filter hd
  have hmapc : (dictValues (l.map
      (fun d => (d.date, d.select_files (fun _ => true))))).map
      (fun d => d.all_files.length) =
      l.map (fun d => d.all_files.length) := by
    simp only [dictValues, List.map_map]
    refine List.map_congr_left ?_
    intro d hd
    exact dday_select_true_count d (hdayWF d (hsubl d hd))
  rw [hmapc, hldef]
  refine sum_filter_of_zero _ _ _ ?_
  intro d hd hp
  have hzero : ¬ 0 < (d.select_files (fun _ => true)).configurations.length :=
    of_decide_eq_false hp
  have hc : (d.select_files (fun _ => true)).configurations = [] := by
    rcases Nat.eq_zero_or_pos (d.select_files (fun _ => true)).configurations.length
      with hz | hpos
    · exact List.eq_nil_of_length_eq_zero hz
    · exact absurd hpos hzero
  have hdWF : dayKeysOK d := hdayWF d hd
  have hcount := dday_select_true_count d hdWF
  rw [← hcount, dday_all_files_length, hc]
  rfl

/-- C8 (confirmed): on a well-keyed directory, selecting with the
always-true predicate yields a tree with the same total file count, and
selecting with the always-false predicate yields an empty tree (no days,
hence no configurations); selection builds a fresh structure, leaving the
source tree untouched. -/
theorem select_files_round_trip (dir : Directory) (h : dirKeysOK dir) :
    (dir.select_files (fun _ => true)).all_files.length = dir.all_files.length ∧
    (dir.select_files (fun _ => false)).days = [] := by
  refine ⟨directory_select_true_count dir h, ?_⟩
  unfold Directory.select_files
  rw [foldl_congr_mem _ _ (fun acc _ => acc)
    (by intro v hv b; simp [dday_select_false_configurations v])]
  rw [foldl_id]

/-- C8 (witness): the round trip on the concrete one-file directory. -/
theorem select_files_round_trip_witness :
    (c8Dir.select_files (fun _ => true)).all_files.length = c8Dir.all_files.length ∧
    (c8Dir.select_files (fun _ => false)).days = [] :=
  select_files_round_trip c8Dir (by decide)

end NOMADS















